import Mathlib

/-!
# Verification of the motion-blur BVH builder core (`bvh_builder_msmblur.h`)

This file gives a shallow embedding of the builder core of
`kernels/builders/bvh_builder_msmblur.h` and proves the specified properties
about it.  Floating-point SAH costs and time values are modelled as rationals:
the properties under study are about the comparison structure of the control
flow, not about rounding.  Machine `size_t` quantities are modelled as `Nat`.

Embedded components:
* `Split`, the tagged split value (`BinSplit`) as far as the core inspects it;
* `find`, the split selector choosing between object and temporal splits;
* `findFallback` / `splitFallback` / `deterministicOrder` / `partition`
  (fallback branch), the fallback machinery;
* the head (leaf/inner/fatal decision) of `recurse` and `createLargeLeaf`;
* the child-filling loops of `recurse` and `createLargeLeaf`;
* `SharedVec` / `ChildList`, the reference-counted shared primitive vectors
  and the local child list, as an explicit state machine;
* the constructor check of `GeneralBVHMBBuilder`.
-/

namespace BVHMB

/-- Tag of a split value (the `data` field of `BinSplit`): an object binning
split, a temporal split (`SPLIT_TEMPORAL`), the fallback split
(`SPLIT_FALLBACK`), or an invalid split. -/
inductive SplitTag where
  | objectSplit : SplitTag
  | temporalSplit : SplitTag
  | fallbackSplit : SplitTag
  | invalidSplit : SplitTag
deriving DecidableEq

/-- A split value as the builder core inspects it: the SAH cost returned by
`splitSAH()`, the tag (`data`), the split dimension and the floating split
position/time (`fpos`), with floats modelled as rationals. -/
structure Split where
  sah : ℚ
  tag : SplitTag
  dim : ℕ
  fpos : ℚ
deriving DecidableEq

/-- The fallback split value `Split(1.0f, Split::SPLIT_FALLBACK)`. -/
def Split.fallback : Split := ⟨1, .fallbackSplit, 0, 0⟩

/-- The temporal split value `Split(1.0f, Split::SPLIT_TEMPORAL, 0, splitTime)`. -/
def Split.temporalAt (splitTime : ℚ) : Split := ⟨1, .temporalSplit, 0, splitTime⟩

/-! ## The split selector `find` (lines 200-218)

The two binning heuristics are outside the core (separate headers); they enter
the model as parameters.  The temporal heuristic is passed as a thunk so that
the definition records that it is only evaluated under the time-range guard. -/

/-- Embedding of `GeneralBVHMBBuilder::find(set, pinfo, logBlockSize)`.
`objectSplit` is the result of the object binning heuristic (always computed),
`temporalHeuristic` is the temporal binning heuristic (a thunk, forced only
under the guard), `timeRangeSize` is `set.time_range.size()` and
`maxNumTimeSegments` is `pinfo.max_num_time_segments`. -/
def find (objectSplit : Split) (temporalHeuristic : Unit → Split)
    (timeRangeSize : ℚ) (maxNumTimeSegments : ℕ) : Split :=
  let object_split_sah := objectSplit.sah
  if timeRangeSize > (101 / 100 : ℚ) / (maxNumTimeSegments : ℚ) then
    let temporal_split := temporalHeuristic ()
    let temporal_split_sah := temporal_split.sah
    if temporal_split_sah < object_split_sah then temporal_split
    else objectSplit
  else objectSplit

/-! ## The fallback split finder `findFallback` (lines 240-262)

`getTimeSegmentRange` lives in a common header outside the core; it enters the
model as a parameter `tsr` mapping a primitive's `totalTimeSegments` to the
integer segment range (over the record's fixed time range).  A primitive is
represented by its `totalTimeSegments` value, the only field `findFallback`
reads. -/

/-- The scan loop of `findFallback` over the record's primitives (in index
order): for the first primitive whose segment range has more than one segment,
return the temporal split at the renormalised integer centre of the range. -/
def findFallbackScan (tsr : ℕ → ℕ × ℕ) : List ℕ → Option Split
  | [] => none
  | p :: rest =>
    let itime_range := tsr p
    let localTimeSegments := itime_range.2 - itime_range.1
    if 1 < localTimeSegments then
      let icenter := (itime_range.1 + itime_range.2) / 2
      some (Split.temporalAt ((icenter : ℚ) / (p : ℚ)))
    else findFallbackScan tsr rest

/-- Embedding of `GeneralBVHMBBuilder::findFallback(current, singleLeafTimeSegment)`:
when `singleLeafTimeSegment` is set, scan the record's primitives and split
time at the first primitive spanning more than one local time segment;
otherwise (or when no such primitive exists) return the fallback split. -/
def findFallback (singleLeafTimeSegment : Bool) (tsr : ℕ → ℕ × ℕ)
    (prims : List ℕ) : Split :=
  if singleLeafTimeSegment then
    match findFallbackScan tsr prims with
    | some s => s
    | none => Split.fallback
  else Split.fallback

/-- The specification's reading of `findFallback`: the FIRST primitive (via
`List.find?`) whose time-segment range has size greater than one yields a
temporal split at `center(tseg) / totalTimeSegments`; otherwise FALLBACK. -/
def findFallbackSpec (singleLeafTimeSegment : Bool) (tsr : ℕ → ℕ × ℕ)
    (prims : List ℕ) : Split :=
  if singleLeafTimeSegment then
    match prims.find? (fun p => decide (1 < (tsr p).2 - (tsr p).1)) with
    | some p =>
      Split.temporalAt (((((tsr p).1 + (tsr p).2) / 2 : ℕ) : ℚ) / (p : ℚ))
    | none => Split.fallback
  else Split.fallback

/-! ## The `createLargeLeaf` head (lines 293-304) -/

/-- The data of a build record read by the head of `createLargeLeaf`:
the recursion depth, the primitives of the record's range (each given by its
`totalTimeSegments`), and the segment-range function for the record's time
range.  `pinfo.size()` is the length of `prims`. -/
structure LargeLeafRec where
  depth : ℕ
  prims : List ℕ
  tsr : ℕ → ℕ × ℕ

/-- Outcome of the head of `createLargeLeaf`: a fatal `throw_RTCError`, a
direct leaf via `createLeaf` (carrying the fallback split installed into the
record), or continuation into the child-filling loop. -/
inductive LLAction where
  | fatal : LLAction
  | leaf : Split → LLAction
  | buildNode : Split → LLAction

/-- Embedding of the head of `GeneralBVHMBBuilder::createLargeLeaf`: fatal
error when the depth limit is exceeded, otherwise the record's split is
replaced by the fallback split and a leaf is emitted for few primitives unless
the fallback split is temporal. -/
def createLargeLeafHead (maxDepth maxLeafSize : ℕ) (singleLeafTimeSegment : Bool)
    (cur : LargeLeafRec) : LLAction :=
  if cur.depth > maxDepth then .fatal
  else
    let split := findFallback singleLeafTimeSegment cur.tsr cur.prims
    if cur.prims.length ≤ maxLeafSize ∧ split.tag ≠ .temporalSplit then
      .leaf split
    else .buildNode split

/-! ## The builder constructor (lines 170-193) -/

/-- The constant `MAX_BRANCHING_FACTOR` of `GeneralBVHMBBuilder`. -/
def MAX_BRANCHING_FACTOR : ℕ := 8

/-- The constant `MIN_LARGE_LEAF_LEVELS` of `GeneralBVHMBBuilder`. -/
def MIN_LARGE_LEAF_LEVELS : ℕ := 8

/-- The configuration parameters stored by the builder constructor. -/
structure BuilderCfg where
  branchingFactor : ℕ
  maxDepth : ℕ
  logBlockSize : ℕ
  minLeafSize : ℕ
  maxLeafSize : ℕ
  travCost : ℚ
  intCost : ℚ
  singleLeafTimeSegment : Bool
deriving DecidableEq

/-- Embedding of the `GeneralBVHMBBuilder` constructor: the only check is
`branchingFactor > MAX_BRANCHING_FACTOR`, which raises
`"bvh_builder: branching factor too large"`. -/
def mkGeneralBVHMBBuilder (cfg : BuilderCfg) : Except String BuilderCfg :=
  if cfg.branchingFactor > MAX_BRANCHING_FACTOR then
    .error "bvh_builder: branching factor too large"
  else .ok cfg

/-! ## Sets, `deterministic_order` and `splitFallback` (lines 221-291)

A `SetMB` is a view into a shared primitive array: in this functional model
the array contents are carried as a list, the object range as a pair of
indices, and the time range as two rationals.  `PrimRefMB` stays abstract
(type parameter `α`); its content-derived total order enters as a boolean
comparison `le`, and `PrimInfoMB` aggregation enters as a fold `add` with the
`empty` initial value. -/

/-- A `SetMB`: the contents of the shared primitive array plus the half-open
object range `[rbeg, rend)` and the time range `[t0, t1]`. -/
structure SetMB (α : Type) where
  prims : List α
  rbeg : ℕ
  rend : ℕ
  t0 : ℚ
  t1 : ℚ

/-- The fields of `PrimInfoMB` that `splitFallback` writes: the aggregate of
`add_primref` calls plus `begin`, `end` and `time_range`. -/
structure PrimInfoAgg (β : Type) where
  acc : β
  piBeg : ℕ
  piEnd : ℕ
  t0 : ℚ
  t1 : ℚ

/-- Embedding of `GeneralBVHMBBuilder::deterministic_order(set)`:
`std::sort(&prims[begin], &prims[end])` sorts the subrange
`[rbeg, rend)` of the shared array in place and leaves the rest of the
array untouched. -/
def deterministicOrder {α : Type} (le : α → α → Bool) (set : SetMB α) : SetMB α :=
  { set with prims :=
      set.prims.take set.rbeg ++
      ((set.prims.drop set.rbeg).take (set.rend - set.rbeg)).mergeSort le ++
      set.prims.drop set.rend }

/-- The loop `for (i = lo; i < hi; i++) acc = add acc prims[i]` used by
`splitFallback` to accumulate a `PrimInfoMB` over an index range (`d` is the
out-of-range default, never read for in-range loops). -/
def aggRange {α β : Type} (add : β → α → β) (z : β) (prims : List α) (d : α)
    (lo hi : ℕ) : β :=
  (List.range' lo (hi - lo)).foldl (fun acc i => add acc (prims.getD i d)) z

/-- Embedding of `GeneralBVHMBBuilder::splitFallback(set, linfo, lset, rinfo, rset)`:
split the object range at the midpoint index `(begin+end)/2`, accumulate each
half into its `PrimInfoMB`, and make both children views of the same array
with the parent's time range. -/
def splitFallback {α β : Type} (add : β → α → β) (z : β) (d : α)
    (set : SetMB α) :
    PrimInfoAgg β × SetMB α × PrimInfoAgg β × SetMB α :=
  let rbeg := set.rbeg
  let rend := set.rend
  let center := (rbeg + rend) / 2
  let linfo : PrimInfoAgg β :=
    ⟨aggRange add z set.prims d rbeg center, rbeg, center, set.t0, set.t1⟩
  let rinfo : PrimInfoAgg β :=
    ⟨aggRange add z set.prims d center rend, center, rend, set.t0, set.t1⟩
  let lset : SetMB α := ⟨set.prims, rbeg, center, set.t0, set.t1⟩
  let rset : SetMB α := ⟨set.prims, center, rend, set.t0, set.t1⟩
  (linfo, lset, rinfo, rset)

/-- Embedding of the `SPLIT_FALLBACK` branch of
`GeneralBVHMBBuilder::partition` (lines 224-228): restore deterministic order
on the parent set, then perform the fallback split. -/
def partitionFallback {α β : Type} (le : α → α → Bool) (add : β → α → β)
    (z : β) (d : α) (set : SetMB α) :
    PrimInfoAgg β × SetMB α × PrimInfoAgg β × SetMB α :=
  splitFallback add z d (deterministicOrder le set)

/-! ## The `recurse` head (lines 352-375) -/

/-- The data of a build record read by the leaf test of `recurse`: depth,
`pinfo.size()`, `pinfo.leafSAH(logBlockSize)`, `pinfo.halfArea()` and
`split.splitSAH()`. -/
structure RecurseRec where
  depth : ℕ
  size : ℕ
  leafSAHraw : ℚ
  halfArea : ℚ
  splitSah : ℚ

/-- Outcome of the head of `recurse`: either a leaf region (deterministic
order restored on the set, then handed to `createLargeLeaf`) or an inner-node
build through the child-filling loop. -/
inductive RecurseAction (α : Type) where
  | leafRegion : SetMB α → RecurseAction α
  | buildInner : RecurseAction α

/-- Embedding of the leaf/inner decision of `GeneralBVHMBBuilder::recurse`
(lines 362-371): compute `leafSAH` and `splitSAH` and emit a leaf region when
the size threshold is reached, the depth budget for the large-leaf tree is
exhausted, or SAH favours a leaf. -/
def recurseHead {α : Type} (cfg : BuilderCfg) (r : RecurseRec)
    (set : SetMB α) (le : α → α → Bool) : RecurseAction α :=
  let leafSAH := cfg.intCost * r.leafSAHraw
  let splitSAH := cfg.travCost * r.halfArea + cfg.intCost * r.splitSah
  if r.size ≤ cfg.minLeafSize ∨ r.depth + MIN_LARGE_LEAF_LEVELS ≥ cfg.maxDepth ∨
      (r.size ≤ cfg.maxLeafSize ∧ leafSAH ≤ splitSAH) then
    .leafRegion (deterministicOrder le set)
  else .buildInner

/-- The specification's leaf condition for `recurse`, written from the spec
text: `pinfo.size ≤ minLeafSize`, or `depth + 8 ≥ maxDepth`, or
`pinfo.size ≤ maxLeafSize` and
`intCost·pinfo.leafSAH(logBlockSize) ≤ travCost·pinfo.halfArea + intCost·split.splitSAH()`. -/
def recurseLeafConditionSpec (cfg : BuilderCfg) (r : RecurseRec) : Prop :=
  r.size ≤ cfg.minLeafSize ∨ r.depth + 8 ≥ cfg.maxDepth ∨
    (r.size ≤ cfg.maxLeafSize ∧
      cfg.intCost * r.leafSAHraw ≤
        cfg.travCost * r.halfArea + cfg.intCost * r.splitSah)

/-! ## The child-filling loops (lines 310-339 and 378-402)

Both loops repeatedly select a best child, split it via `partition` (and the
relevant split finder) and insert the two halves, until no child is eligible
or the list is full.  The outcome of splitting a record is outside the
fragment under study (it runs the heuristics); it enters the model as an
oracle mapping the current child list and the selected index to the two new
records.  Only the record fields each loop reads are modelled. -/

/-- Child data read by the filling loop of `recurse`: `pinfo.size()` and
`expectedApproxHalfArea(pinfo.geomBounds)`. -/
structure RecR where
  size : ℕ
  area : ℚ

/-- The best-child selection loop of `recurse` (lines 380-388): skip children
with `size ≤ minLeafSize`; among the rest take the one with the largest
expected half area (`> bestSAH`, starting from `-inf`, modelled as `none`). -/
def pickBestR (minLeafSize : ℕ) : List RecR → ℕ → Option ℕ → Option ℚ → Option ℕ
  | [], _, best, _ => best
  | c :: rest, i, best, bsah =>
    if c.size ≤ minLeafSize then pickBestR minLeafSize rest (i + 1) best bsah
    else
      match bsah with
      | none => pickBestR minLeafSize rest (i + 1) (some i) (some c.area)
      | some s =>
        if s < c.area then pickBestR minLeafSize rest (i + 1) (some i) (some c.area)
        else pickBestR minLeafSize rest (i + 1) best bsah

/-- Operation `children.split(bestChild, lrecord, rrecord)` as it affects the record
list: replace slot `bestChild` by the left record and append the right
record. -/
def splitChildren {γ : Type} (cs : List γ) (b : ℕ) (l r : γ) : List γ :=
  cs.set b l ++ [r]

/-- The do-while filling loop of `recurse` (lines 378-402): run the body
(select, partition, insert), then repeat while `children.size() <
branchingFactor`.  `fuel` dominates the iteration count; every iteration
grows the list, so any `fuel ≥ branchingFactor` makes the zero-fuel case
unreachable. -/
def fillLoopR (minLeafSize bf : ℕ) (orac : List RecR → ℕ → RecR × RecR) :
    ℕ → List RecR → List RecR
  | 0, cs => cs
  | fuel + 1, cs =>
    match pickBestR minLeafSize cs 0 none none with
    | none => cs
    | some b =>
      if (splitChildren cs b (orac cs b).1 (orac cs b).2).length < bf then
        fillLoopR minLeafSize bf orac fuel
          (splitChildren cs b (orac cs b).1 (orac cs b).2)
      else splitChildren cs b (orac cs b).1 (orac cs b).2

/-- Child data read by the filling loop of `createLargeLeaf`: `pinfo.size()`
and whether `split.data == Split::SPLIT_TEMPORAL`. -/
structure RecL where
  size : ℕ
  temporal : Bool

/-- The best-child selection loop of `createLargeLeaf` (lines 311-325): skip
children that would become plain leaves (`size ≤ maxLeafSize` and not
temporal); among the rest take the one with the largest size (`> bestSize`,
starting from `0`). -/
def pickBestL (maxLeafSize : ℕ) : List RecL → ℕ → Option ℕ → ℕ → Option ℕ
  | [], _, best, _ => best
  | c :: rest, i, best, bestSize =>
    if c.size ≤ maxLeafSize ∧ c.temporal = false then
      pickBestL maxLeafSize rest (i + 1) best bestSize
    else
      if bestSize < c.size then pickBestL maxLeafSize rest (i + 1) (some i) c.size
      else pickBestL maxLeafSize rest (i + 1) best bestSize

/-- The do-while filling loop of `createLargeLeaf` (lines 310-339). -/
def fillLoopL (maxLeafSize bf : ℕ) (orac : List RecL → ℕ → RecL × RecL) :
    ℕ → List RecL → List RecL
  | 0, cs => cs
  | fuel + 1, cs =>
    match pickBestL maxLeafSize cs 0 none 0 with
    | none => cs
    | some b =>
      if (splitChildren cs b (orac cs b).1 (orac cs b).2).length < bf then
        fillLoopL maxLeafSize bf orac fuel
          (splitChildren cs b (orac cs b).1 (orac cs b).2)
      else splitChildren cs b (orac cs b).1 (orac cs b).2

/-! ## `SharedVector` and `LocalChildListT` (lines 30-110)

The reference-counting layer is modelled as an explicit state machine.  A
primitive array is identified by an abstract pointer (a `Nat`); a
`SharedVec` carries that pointer, its reference count and the number of times
`delete prims` has executed for it (`freeCount`, `0` while the array is
alive).  The child-list state carries the slot pool `vecs` (indexed in
allocation order, `numSharedPrimVecs` slots used), the per-child record
pointers `children` (the `prims.prims` field of each build record, the only
record field this layer reads) and the per-child vector indices `primvecs`. -/

/-- A `SharedVector<mvector<PrimRefMB>>`: the wrapped array pointer, the
reference count, and how many times the array has been deleted. -/
structure SharedVec where
  ptr : ℕ
  refCount : ℕ
  freeCount : ℕ
deriving DecidableEq

/-- State of a `LocalChildListT`. -/
structure ChildList where
  numChildren : ℕ
  numSharedPrimVecs : ℕ
  children : ℕ → ℕ
  primvecs : ℕ → ℕ
  vecs : ℕ → SharedVec

/-- Operation `incRef` on the vector at pool index `j`. -/
def incRefAt (s : ChildList) (j : ℕ) : ChildList :=
  { s with vecs :=
      Function.update s.vecs j ⟨(s.vecs j).ptr, (s.vecs j).refCount + 1, (s.vecs j).freeCount⟩ }

/-- Operation `decRef` on the vector at pool index `j`: decrement, and when the count
reaches zero, `delete prims` (recorded in `freeCount`). -/
def decRefAt (s : ChildList) (j : ℕ) : ChildList :=
  let v := s.vecs j
  let r := v.refCount - 1
  let v' := if r = 0 then ⟨v.ptr, 0, v.freeCount + 1⟩ else ⟨v.ptr, r, v.freeCount⟩
  { s with vecs := Function.update s.vecs j v' }

/-- Allocation `new (&sharedPrimVecs[numSharedPrimVecs++]) SharedPrimRefVector(p)`:
placement-new of a fresh vector with reference count 1 at the next pool
slot. -/
def allocVec (s : ChildList) (p : ℕ) : ChildList :=
  { s with
    vecs := Function.update s.vecs s.numSharedPrimVecs ⟨p, 1, 0⟩,
    numSharedPrimVecs := s.numSharedPrimVecs + 1 }

/-- The `LocalChildListT` constructor (lines 56-62): install the incoming
record (with array pointer `p`) as child 0 and create its shared vector at
pool slot 0 with reference count 2 (one for this list, one for the ancestor
that created the array). -/
def initCL (p : ℕ) : ChildList :=
  { numChildren := 1
    numSharedPrimVecs := 1
    children := fun _ => p
    primvecs := fun _ => 0
    vecs := fun j => if j = 0 then ⟨p, 2, 0⟩ else ⟨0, 0, 0⟩ }

/-- One phase of `LocalChildListT::split`: point slot `slot` (whose new record
has array pointer `p`) at a shared vector, reusing the pre-split vector `b`
(with `incRef`) when `p` equals its array pointer and allocating a fresh
vector otherwise. -/
def assignChildVec (s : ChildList) (slot p b : ℕ) : ChildList :=
  if p = (s.vecs b).ptr then
    let s' := incRefAt s b
    { s' with primvecs := Function.update s'.primvecs slot b }
  else
    let s' := allocVec s p
    { s' with primvecs := Function.update s'.primvecs slot s.numSharedPrimVecs }

/-- Embedding of `LocalChildListT::split(bestChild, lrecord, rrecord)` (lines 78-101):
re-point slot `bestChild` for the left record and slot `numChildren` for the
right record (reusing or allocating shared vectors), release the pre-split
vector once, install the two records, and grow `numChildren`.  `lptr` and
`rptr` are the array pointers of the two incoming records. -/
def splitCL (s : ChildList) (bestChild lptr rptr : ℕ) : ChildList :=
  let b := s.primvecs bestChild
  let s1 := assignChildVec s bestChild lptr b
  let s2 := assignChildVec s1 s.numChildren rptr b
  let s3 := decRefAt s2 b
  { s3 with
    children :=
      Function.update (Function.update s3.children bestChild lptr)
        s.numChildren rptr
    numChildren := s.numChildren + 1 }

/-- Iterated destructor loop (lines 64-68): `primvecs[i]->decRef()` for
`i = 0, …, k-1`, reading the slot assignments `pv` fixed at entry. -/
def destroyStep (s : ChildList) (pv : ℕ → ℕ) : ℕ → ChildList
  | 0 => s
  | k + 1 => decRefAt (destroyStep s pv k) (pv k)

/-- The `LocalChildListT` destructor: release each live child's shared vector
once. -/
def destroyCL (s : ChildList) : ChildList :=
  destroyStep s s.primvecs s.numChildren

/-- A pointer is fresh for a state when no pool vector (live or freed) wraps
it.  The arrays handed to `split` by `partition` are either the pre-split
array (object or fallback split, partitioned in place) or newly allocated
arrays (temporal split), so fresh pointers cannot collide with pool
entries. -/
def FreshPtr (s : ChildList) (p : ℕ) : Prop :=
  ∀ j < s.numSharedPrimVecs, (s.vecs j).ptr ≠ p

/-- Validity of a `split` call, as established at its call sites: the selected
child exists, the list is not full (the do-while condition
`children.size() < branchingFactor`), and each incoming record either reuses
the pre-split array or carries a fresh one (two fresh arrays are distinct). -/
structure ValidSplit (F : ℕ) (s : ChildList) (bestChild lptr rptr : ℕ) : Prop where
  hb : bestChild < s.numChildren
  hcap : s.numChildren < F
  hl : lptr = (s.vecs (s.primvecs bestChild)).ptr ∨ FreshPtr s lptr
  hr : rptr = (s.vecs (s.primvecs bestChild)).ptr ∨ FreshPtr s rptr
  hlr : lptr ≠ (s.vecs (s.primvecs bestChild)).ptr →
    rptr ≠ (s.vecs (s.primvecs bestChild)).ptr → lptr ≠ rptr

/-- States reachable in the lifetime of one `LocalChildListT` under branching
factor `F`: the constructor state, closed under valid splits. -/
inductive ReachesCL (F : ℕ) : ChildList → Prop where
  | init (p : ℕ) : ReachesCL F (initCL p)
  | step {s : ChildList} {b l r : ℕ} : ReachesCL F s → ValidSplit F s b l r →
      ReachesCL F (splitCL s b l r)

/-- Number of slots among `0, …, n-1` that the assignment `pv` points at pool
index `j`. -/
def slotCountF (n : ℕ) (pv : ℕ → ℕ) (j : ℕ) : ℕ :=
  ∑ i ∈ Finset.range n, if pv i = j then 1 else 0

/-- Number of child slots of the list currently pointing at pool index `j`. -/
def slotCount (s : ChildList) (j : ℕ) : ℕ :=
  slotCountF s.numChildren s.primvecs j

/-- References to the vector at pool index `j` held outside the list: the
ancestor that created the incoming array holds one reference to the root
vector (pool index 0, created with `refCount = 2`); fresh vectors have no
outside holders. -/
def outsideHolders (j : ℕ) : ℕ :=
  if j = 0 then 1 else 0

/-- The reference-counting invariant of a `LocalChildListT` state. -/
structure CLInv (F : ℕ) (s : ChildList) : Prop where
  cpos : 1 ≤ s.numChildren
  nc_le : s.numChildren ≤ F
  pv_lt : ∀ i < s.numChildren, s.primvecs i < s.numSharedPrimVecs
  child_ptr : ∀ i < s.numChildren, s.children i = (s.vecs (s.primvecs i)).ptr
  refcount : ∀ j < s.numSharedPrimVecs,
    (s.vecs j).refCount = slotCount s j + outsideHolders j
  freecount : ∀ j < s.numSharedPrimVecs,
    (s.vecs j).freeCount = if slotCount s j + outsideHolders j = 0 then 1 else 0
  ptr_inj : ∀ j < s.numSharedPrimVecs, ∀ k < s.numSharedPrimVecs,
    (s.vecs j).ptr = (s.vecs k).ptr → j = k
  vec_bound : s.numSharedPrimVecs ≤ 2 * s.numChildren - 1

/-! ## Theorems -/

/-- Claim C8: constructing the builder raises a configuration error if and only if
`branchingFactor > 8`; in particular `branchingFactor = 9` is rejected at
construction time (before any build), while `branchingFactor = 0` and
`branchingFactor = 1` are not rejected. -/
theorem builder_construction_error_iff :
    (∀ cfg : BuilderCfg,
      (∃ e, mkGeneralBVHMBBuilder cfg = .error e) ↔ cfg.branchingFactor > 8)
    ∧ (∀ cfg : BuilderCfg, cfg.branchingFactor = 9 →
        mkGeneralBVHMBBuilder cfg = .error "bvh_builder: branching factor too large")
    ∧ (∀ cfg : BuilderCfg, cfg.branchingFactor = 0 ∨ cfg.branchingFactor = 1 →
        mkGeneralBVHMBBuilder cfg = .ok cfg) := by
  refine ⟨fun cfg => ?_, fun cfg h => ?_, fun cfg h => ?_⟩
  · unfold mkGeneralBVHMBBuilder MAX_BRANCHING_FACTOR
    constructor
    · rintro ⟨e, he⟩
      by_contra hle
      rw [if_neg hle] at he
      exact Except.noConfusion he
    · intro hgt
      exact ⟨_, if_pos hgt⟩
  · unfold mkGeneralBVHMBBuilder MAX_BRANCHING_FACTOR
    rw [if_pos (by omega)]
  · unfold mkGeneralBVHMBBuilder MAX_BRANCHING_FACTOR
    rw [if_neg (by omega)]

/-- Witness for C8: a configuration with branching factor 9 is rejected with
the configuration error. -/
theorem builder_construction_error_iff_witness :
    mkGeneralBVHMBBuilder ⟨9, 32, 0, 1, 4, 1, 1, false⟩ =
      .error "bvh_builder: branching factor too large" :=
  builder_construction_error_iff.2.1 ⟨9, 32, 0, 1, 4, 1, 1, false⟩ rfl

/-- Claim C1: in the split selector `find`, the object split is always computed; the
temporal split is computed only under the guard
`set.time_range.size() > 1.01 / pinfo.max_num_time_segments`; when both are
evaluated, the split with strictly smaller SAH is returned, with ties (and
`objectSplit.sah < temporalSplit.sah`) resolved to the object split; when the
guard fails, the object split is returned unconditionally. -/
theorem find_split_selection (objectSplit : Split) (temporalHeuristic : Unit → Split)
    (timeRangeSize : ℚ) (maxNumTimeSegments : ℕ) :
    (¬ timeRangeSize > (101 / 100 : ℚ) / (maxNumTimeSegments : ℚ) →
      find objectSplit temporalHeuristic timeRangeSize maxNumTimeSegments = objectSplit)
    ∧ (timeRangeSize > (101 / 100 : ℚ) / (maxNumTimeSegments : ℚ) →
        ((temporalHeuristic ()).sah < objectSplit.sah →
          find objectSplit temporalHeuristic timeRangeSize maxNumTimeSegments =
            temporalHeuristic ())
        ∧ (objectSplit.sah ≤ (temporalHeuristic ()).sah →
          find objectSplit temporalHeuristic timeRangeSize maxNumTimeSegments =
            objectSplit)) := by
  unfold find
  constructor
  · intro hng
    rw [if_neg hng]
  · intro hg
    rw [if_pos hg]
    constructor
    · intro hlt
      rw [if_pos hlt]
    · intro hge
      rw [if_neg (not_lt.mpr hge)]

/-- The guard of `find` holds at `timeRangeSize = 1`, `maxNumTimeSegments = 2`. -/
theorem find_guard_example : (1 : ℚ) > (101 / 100 : ℚ) / ((2 : ℕ) : ℚ) := by
  norm_num

/-- A strict SAH comparison used by the C1 witness. -/
theorem find_sah_example :
    ((fun _ => (⟨1, .temporalSplit, 0, 0⟩ : Split)) ()).sah <
      (⟨2, .objectSplit, 0, 0⟩ : Split).sah := by
  norm_num [Split.sah]

/-- Witness for C1: with the guard satisfied and a temporal split of strictly
smaller SAH, `find` returns the temporal split. -/
theorem find_split_selection_witness :
    find ⟨2, .objectSplit, 0, 0⟩ (fun _ => ⟨1, .temporalSplit, 0, 0⟩) 1 2 =
      (fun _ => (⟨1, .temporalSplit, 0, 0⟩ : Split)) () :=
  ((find_split_selection ⟨2, .objectSplit, 0, 0⟩ (fun _ => ⟨1, .temporalSplit, 0, 0⟩)
    1 2).2 find_guard_example).1 find_sah_example

/-- The scan loop of `findFallback` returns the temporal split of the first
primitive spanning more than one local time segment, phrased via `List.find?`. -/
theorem findFallbackScan_eq_find? (tsr : ℕ → ℕ × ℕ) (l : List ℕ) :
    findFallbackScan tsr l =
      (l.find? (fun p => decide (1 < (tsr p).2 - (tsr p).1))).map
        (fun p =>
          Split.temporalAt (((((tsr p).1 + (tsr p).2) / 2 : ℕ) : ℚ) / (p : ℚ))) := by
  induction l with
  | nil => rfl
  | cons p rest ih =>
    by_cases h : 1 < (tsr p).2 - (tsr p).1
    · simp [findFallbackScan, List.find?_cons, h, Split.temporalAt]
    · simp only [findFallbackScan, List.find?_cons, if_neg h]
      have hb : decide (1 < (tsr p).2 - (tsr p).1) = false := by
        simp [h]
      rw [hb]
      exact ih

/-- Claim C5: `findFallback(record, singleLeafTimeSegment)` equals its specification:
when `singleLeafTimeSegment` is true, the record's primitives are scanned in
index order and the FIRST primitive whose local time-segment range has size
greater than one produces a TEMPORAL split at
`float((tseg.begin + tseg.end) / 2) / float(totalTimeSegments)`; if there is
no such primitive, or `singleLeafTimeSegment` is false, the FALLBACK split is
returned. -/
theorem findFallback_eq_spec (singleLeafTimeSegment : Bool) (tsr : ℕ → ℕ × ℕ)
    (prims : List ℕ) :
    findFallback singleLeafTimeSegment tsr prims =
      findFallbackSpec singleLeafTimeSegment tsr prims := by
  unfold findFallback findFallbackSpec
  cases singleLeafTimeSegment with
  | false => rfl
  | true =>
    rw [findFallbackScan_eq_find? tsr prims]
    cases prims.find? (fun p => decide (1 < (tsr p).2 - (tsr p).1)) with
    | none => rfl
    | some p => rfl

/-- Claim C7: the gate of `createLargeLeaf`: an invocation with
`depth > maxDepth` raises the fatal error (and no node or leaf is produced),
and otherwise the record's split is replaced by the fallback split and a leaf
is emitted directly via `createLeaf` if and only if
`pinfo.size ≤ maxLeafSize` and the fallback split is not TEMPORAL. -/
theorem createLargeLeaf_gate (maxDepth maxLeafSize : ℕ)
    (singleLeafTimeSegment : Bool) (cur : LargeLeafRec) :
    (createLargeLeafHead maxDepth maxLeafSize singleLeafTimeSegment cur = .fatal ↔
      cur.depth > maxDepth)
    ∧ (cur.depth ≤ maxDepth →
        (createLargeLeafHead maxDepth maxLeafSize singleLeafTimeSegment cur =
            .leaf (findFallback singleLeafTimeSegment cur.tsr cur.prims) ↔
          (cur.prims.length ≤ maxLeafSize ∧
            (findFallback singleLeafTimeSegment cur.tsr cur.prims).tag ≠
              .temporalSplit))
        ∧ (¬ (cur.prims.length ≤ maxLeafSize ∧
            (findFallback singleLeafTimeSegment cur.tsr cur.prims).tag ≠
              .temporalSplit) →
          createLargeLeafHead maxDepth maxLeafSize singleLeafTimeSegment cur =
            .buildNode (findFallback singleLeafTimeSegment cur.tsr cur.prims))) := by
  unfold createLargeLeafHead
  by_cases hd : cur.depth > maxDepth
  · constructor
    · simp [hd]
    · intro hle
      exact absurd hle (not_le.mpr hd)
  · rw [if_neg hd]
    constructor
    · constructor
      · intro h
        exfalso
        by_cases hc : cur.prims.length ≤ maxLeafSize ∧
            (findFallback singleLeafTimeSegment cur.tsr cur.prims).tag ≠ .temporalSplit
        · rw [if_pos hc] at h
          exact LLAction.noConfusion h
        · rw [if_neg hc] at h
          exact LLAction.noConfusion h
      · intro h
        exact absurd h hd
    · intro _
      constructor
      · by_cases hc : cur.prims.length ≤ maxLeafSize ∧
            (findFallback singleLeafTimeSegment cur.tsr cur.prims).tag ≠ .temporalSplit
        · rw [if_pos hc]
          simp [hc]
        · rw [if_neg hc]
          constructor
          · intro h
            exact LLAction.noConfusion h
          · intro h
            exact absurd h hc
      · intro hc
        rw [if_neg hc]

/-- Witness for C7: at depth 0 with `maxDepth = 8`, an empty record gets the
fallback split and a direct leaf. -/
theorem createLargeLeaf_gate_witness :
    createLargeLeafHead 8 4 false ⟨0, [], fun _ => (0, 0)⟩ =
      .leaf (findFallback false (fun _ => (0, 0)) []) :=
  ((createLargeLeaf_gate 8 4 false ⟨0, [], fun _ => (0, 0)⟩).2 (by decide)).1.mpr
    ⟨by decide, by decide⟩

/-- Claim C2: the general recursive builder emits a leaf region (restoring
deterministic order on the record's set and handing it to the large-leaf
sub-builder) if and only if `pinfo.size ≤ minLeafSize`, or
`depth + 8 ≥ maxDepth`, or `pinfo.size ≤ maxLeafSize` together with
`intCost·pinfo.leafSAH(logBlockSize) ≤ travCost·pinfo.halfArea +
intCost·split.splitSAH()`; otherwise an inner node is built. -/
theorem recurse_leaf_iff {α : Type} (cfg : BuilderCfg) (r : RecurseRec)
    (set : SetMB α) (le : α → α → Bool) :
    (recurseHead cfg r set le = .leafRegion (deterministicOrder le set) ↔
      recurseLeafConditionSpec cfg r)
    ∧ (¬ recurseLeafConditionSpec cfg r →
      recurseHead cfg r set le = .buildInner) := by
  unfold recurseHead recurseLeafConditionSpec MIN_LARGE_LEAF_LEVELS
  by_cases hc : r.size ≤ cfg.minLeafSize ∨ r.depth + 8 ≥ cfg.maxDepth ∨
      (r.size ≤ cfg.maxLeafSize ∧
        cfg.intCost * r.leafSAHraw ≤
          cfg.travCost * r.halfArea + cfg.intCost * r.splitSah)
  · simp [hc]
  · simp [hc]

/-- Witness for C2: a record at the minimum leaf size is sent to the leaf
path. -/
theorem recurse_leaf_iff_witness :
    recurseHead ⟨2, 32, 0, 1, 4, 1, 1, false⟩ ⟨0, 1, 0, 0, 0⟩
        (⟨[], 0, 0, 0, 1⟩ : SetMB ℕ) (fun a b => decide (a ≤ b)) =
      .leafRegion (deterministicOrder (fun a b => decide (a ≤ b)) ⟨[], 0, 0, 0, 1⟩) :=
  (recurse_leaf_iff ⟨2, 32, 0, 1, 4, 1, 1, false⟩ ⟨0, 1, 0, 0, 0⟩
    ⟨[], 0, 0, 0, 1⟩ (fun a b => decide (a ≤ b))).1.mpr (Or.inl (by decide))

/-- The index loop `for (i = lo; i < lo+n; i++) acc = add acc prims[i]` folds
exactly over the slice of `n` elements starting at `lo`. -/
theorem aggRange_go {α β : Type} (add : β → α → β) (d : α) (l : List α) :
    ∀ n lo z, lo + n ≤ l.length →
      (List.range' lo n).foldl (fun acc i => add acc (l.getD i d)) z =
        ((l.drop lo).take n).foldl add z := by
  intro n
  induction n with
  | zero => simp
  | succ m ih =>
    intro lo z h
    have hlo : lo < l.length := by omega
    rw [List.range'_succ, List.foldl_cons, List.drop_eq_getElem_cons hlo,
      List.take_succ_cons, List.foldl_cons, List.getD_eq_getElem l d hlo]
    exact ih (lo + 1) (add z l[lo]) (by omega)

/-- The value of `aggRange` over `[lo, hi)` is the fold over the slice from `lo` of length
`hi - lo`. -/
theorem aggRange_eq_foldl_slice {α β : Type} (add : β → α → β) (z : β)
    (l : List α) (d : α) (lo hi : ℕ) (h : hi ≤ l.length) :
    aggRange add z l d lo hi = ((l.drop lo).take (hi - lo)).foldl add z := by
  unfold aggRange
  rcases Nat.le_total lo hi with hle | hge
  · exact aggRange_go add d l (hi - lo) lo z (by omega)
  · have : hi - lo = 0 := by omega
    simp [this]

/-- The prims array after `deterministic_order`, decomposed. -/
theorem deterministicOrder_prims {α : Type} (le : α → α → Bool) (set : SetMB α) :
    (deterministicOrder le set).prims =
      set.prims.take set.rbeg ++
      ((set.prims.drop set.rbeg).take (set.rend - set.rbeg)).mergeSort le ++
      set.prims.drop set.rend := rfl

/-- Length bookkeeping for `deterministic_order`. -/
theorem deterministicOrder_length {α : Type} (le : α → α → Bool) (set : SetMB α)
    (hbe : set.rbeg ≤ set.rend) (hel : set.rend ≤ set.prims.length) :
    (set.prims.take set.rbeg).length = set.rbeg ∧
    (((set.prims.drop set.rbeg).take (set.rend - set.rbeg)).mergeSort le).length =
      set.rend - set.rbeg ∧
    (set.prims.drop set.rend).length = set.prims.length - set.rend ∧
    (deterministicOrder le set).prims.length = set.prims.length := by
  have h1 : (set.prims.take set.rbeg).length = set.rbeg := by
    rw [List.length_take]
    omega
  have h2 : (((set.prims.drop set.rbeg).take (set.rend - set.rbeg)).mergeSort le).length =
      set.rend - set.rbeg := by
    rw [List.length_mergeSort, List.length_take, List.length_drop]
    omega
  have h3 : (set.prims.drop set.rend).length = set.prims.length - set.rend :=
    List.length_drop _ _
  refine ⟨h1, h2, h3, ?_⟩
  rw [deterministicOrder_prims, List.length_append, List.length_append, h1, h2, h3]
  omega

/-- The subrange `[rbeg, rend)` of the array after `deterministic_order` is
exactly the sorted copy of the original subrange. -/
theorem deterministicOrder_slice {α : Type} (le : α → α → Bool) (set : SetMB α)
    (hbe : set.rbeg ≤ set.rend) (hel : set.rend ≤ set.prims.length) :
    ((deterministicOrder le set).prims.drop set.rbeg).take (set.rend - set.rbeg) =
      ((set.prims.drop set.rbeg).take (set.rend - set.rbeg)).mergeSort le := by
  obtain ⟨h1, h2, h3, _⟩ := deterministicOrder_length le set hbe hel
  have key : ∀ (A M B : List α), ((A ++ M ++ B).drop A.length).take M.length = M := by
    intro A M B
    rw [List.append_assoc, List.drop_left, List.take_left]
  have := key (set.prims.take set.rbeg)
    (((set.prims.drop set.rbeg).take (set.rend - set.rbeg)).mergeSort le)
    (set.prims.drop set.rend)
  rw [h1, h2] at this
  rw [deterministicOrder_prims]
  exact this

/-- Claim C10: `deterministic_order(set)` modifies only the subrange
`[rbeg, rend)` of the shared array: every element outside that index
range is unchanged, and the subrange after the call is a permutation of its
contents before the call, arranged in sorted order (for any transitive and
total boolean comparison, as with the `PrimRefMB` total order). -/
theorem deterministic_order_frame {α : Type} (le : α → α → Bool) (set : SetMB α)
    (hbe : set.rbeg ≤ set.rend) (hel : set.rend ≤ set.prims.length)
    (htrans : ∀ a b c, le a b = true → le b c = true → le a c = true)
    (htotal : ∀ a b, (le a b || le b a) = true) :
    (∀ i, i < set.rbeg → (deterministicOrder le set).prims[i]? = set.prims[i]?)
    ∧ (∀ i, set.rend ≤ i → (deterministicOrder le set).prims[i]? = set.prims[i]?)
    ∧ (((deterministicOrder le set).prims.drop set.rbeg).take
        (set.rend - set.rbeg)).Perm
        ((set.prims.drop set.rbeg).take (set.rend - set.rbeg))
    ∧ (((deterministicOrder le set).prims.drop set.rbeg).take
        (set.rend - set.rbeg)).Pairwise (fun a b => le a b = true)
    ∧ (deterministicOrder le set).prims.length = set.prims.length
    ∧ (deterministicOrder le set).rbeg = set.rbeg
    ∧ (deterministicOrder le set).rend = set.rend
    ∧ (deterministicOrder le set).t0 = set.t0
    ∧ (deterministicOrder le set).t1 = set.t1 := by
  obtain ⟨h1, h2, h3, hlen⟩ := deterministicOrder_length le set hbe hel
  refine ⟨?_, ?_, ?_, ?_, hlen, rfl, rfl, rfl, rfl⟩
  · intro i hi
    rw [deterministicOrder_prims, List.append_assoc,
      List.getElem?_append_left (by omega), List.getElem?_take, if_pos hi]
  · intro i hi
    rw [deterministicOrder_prims, List.getElem?_append, List.length_append, h1, h2,
      if_neg (by omega), List.getElem?_drop]
    congr 1
    omega
  · rw [deterministicOrder_slice le set hbe hel]
    exact List.mergeSort_perm _ le
  · rw [deterministicOrder_slice le set hbe hel]
    exact List.sorted_mergeSort htrans htotal _

/-- Transitivity of `≤` on `ℕ` as a boolean comparison (for the C10 witness). -/
theorem nat_leb_trans :
    ∀ a b c : ℕ, decide (a ≤ b) = true → decide (b ≤ c) = true →
      decide (a ≤ c) = true := by
  intro a b c hab hbc
  simp only [decide_eq_true_eq] at hab hbc ⊢
  omega

/-- Totality of `≤` on `ℕ` as a boolean comparison (for the C10 witness). -/
theorem nat_leb_total :
    ∀ a b : ℕ, (decide (a ≤ b) || decide (b ≤ a)) = true := by
  intro a b
  rcases Nat.le_total a b with h | h <;> simp [h]

/-- Witness for C10: the sorted subrange of a concrete three-element array is
a permutation of the original subrange. -/
theorem deterministic_order_frame_witness :
    (((deterministicOrder (fun a b : ℕ => decide (a ≤ b))
        ⟨[3, 1, 2], 0, 3, 0, 1⟩).prims.drop 0).take 3).Perm
      ((([3, 1, 2] : List ℕ).drop 0).take 3) :=
  (deterministic_order_frame (fun a b : ℕ => decide (a ≤ b)) ⟨[3, 1, 2], 0, 3, 0, 1⟩
    (by decide) (by decide) nat_leb_trans nat_leb_total).2.2.1

/-- Claim C6: the fallback partition first restores deterministic order on the
record's set, then splits the object range at the midpoint `(begin+end)/2`;
both children are views of the same (deterministically ordered) primitive
array, both inherit the parent's time range unchanged, and each child's
`PrimInfoMB` is the aggregation (fold of `add_primref` from `empty`) of
exactly the primitives of its half-range. -/
theorem partition_fallback_correct {α β : Type} (le : α → α → Bool)
    (add : β → α → β) (z : β) (d : α) (set : SetMB α)
    (hbe : set.rbeg ≤ set.rend) (hel : set.rend ≤ set.prims.length) :
    (partitionFallback le add z d set).2.1.prims =
        (deterministicOrder le set).prims
    ∧ (partitionFallback le add z d set).2.2.2.prims =
        (deterministicOrder le set).prims
    ∧ (partitionFallback le add z d set).2.1.rbeg = set.rbeg
    ∧ (partitionFallback le add z d set).2.1.rend = (set.rbeg + set.rend) / 2
    ∧ (partitionFallback le add z d set).2.2.2.rbeg = (set.rbeg + set.rend) / 2
    ∧ (partitionFallback le add z d set).2.2.2.rend = set.rend
    ∧ (partitionFallback le add z d set).2.1.t0 = set.t0
    ∧ (partitionFallback le add z d set).2.1.t1 = set.t1
    ∧ (partitionFallback le add z d set).2.2.2.t0 = set.t0
    ∧ (partitionFallback le add z d set).2.2.2.t1 = set.t1
    ∧ (partitionFallback le add z d set).1.acc =
        (((deterministicOrder le set).prims.drop set.rbeg).take
          ((set.rbeg + set.rend) / 2 - set.rbeg)).foldl add z
    ∧ (partitionFallback le add z d set).2.2.1.acc =
        (((deterministicOrder le set).prims.drop ((set.rbeg + set.rend) / 2)).take
          (set.rend - (set.rbeg + set.rend) / 2)).foldl add z
    ∧ (partitionFallback le add z d set).1.piBeg = set.rbeg
    ∧ (partitionFallback le add z d set).1.piEnd = (set.rbeg + set.rend) / 2
    ∧ (partitionFallback le add z d set).1.t0 = set.t0
    ∧ (partitionFallback le add z d set).1.t1 = set.t1
    ∧ (partitionFallback le add z d set).2.2.1.piBeg = (set.rbeg + set.rend) / 2
    ∧ (partitionFallback le add z d set).2.2.1.piEnd = set.rend
    ∧ (partitionFallback le add z d set).2.2.1.t0 = set.t0
    ∧ (partitionFallback le add z d set).2.2.1.t1 = set.t1 := by
  obtain ⟨h1, h2, h3, hlen⟩ := deterministicOrder_length le set hbe hel
  have hsame : (deterministicOrder le set).rbeg = set.rbeg := rfl
  have hsame2 : (deterministicOrder le set).rend = set.rend := rfl
  have hst0 : (deterministicOrder le set).t0 = set.t0 := rfl
  have hst1 : (deterministicOrder le set).t1 = set.t1 := rfl
  unfold partitionFallback splitFallback
  refine ⟨rfl, rfl, rfl, rfl, rfl, rfl, rfl, rfl, rfl, rfl, ?_, ?_, rfl, rfl,
    rfl, rfl, rfl, rfl, rfl, rfl⟩
  · exact aggRange_eq_foldl_slice add z (deterministicOrder le set).prims d
      set.rbeg ((set.rbeg + set.rend) / 2) (by omega)
  · exact aggRange_eq_foldl_slice add z (deterministicOrder le set).prims d
      ((set.rbeg + set.rend) / 2) set.rend (by omega)

/-- Witness for C6: the fallback partition of a concrete four-element set. -/
theorem partition_fallback_correct_witness :
    (partitionFallback (fun a b : ℕ => decide (a ≤ b)) (fun acc x => acc + x) 0 0
        ⟨[4, 3, 2, 1], 0, 4, 0, 1⟩).2.1.rend = (0 + 4) / 2 :=
  (partition_fallback_correct (fun a b : ℕ => decide (a ≤ b))
    (fun acc x => acc + x) 0 0 ⟨[4, 3, 2, 1], 0, 4, 0, 1⟩ (by decide)
    (by decide)).2.2.2.1

/-- Operation `children.split` grows the child list by exactly one. -/
theorem splitChildren_length {γ : Type} (cs : List γ) (b : ℕ) (l r : γ) :
    (splitChildren cs b l r).length = cs.length + 1 := by
  unfold splitChildren
  rw [List.length_append, List.length_set]
  rfl

/-- Unfolding of one `recurse` filling iteration when a child is selected. -/
theorem fillLoopR_succ_some (m bf : ℕ) (orac : List RecR → ℕ → RecR × RecR)
    (f : ℕ) (cs : List RecR) (b : ℕ)
    (h : pickBestR m cs 0 none none = some b) :
    fillLoopR m bf orac (f + 1) cs =
      if (splitChildren cs b (orac cs b).1 (orac cs b).2).length < bf then
        fillLoopR m bf orac f (splitChildren cs b (orac cs b).1 (orac cs b).2)
      else splitChildren cs b (orac cs b).1 (orac cs b).2 := by
  conv_lhs => unfold fillLoopR
  rw [h]

/-- Unfolding of one `createLargeLeaf` filling iteration when a child is
selected. -/
theorem fillLoopL_succ_some (m bf : ℕ) (orac : List RecL → ℕ → RecL × RecL)
    (f : ℕ) (cs : List RecL) (b : ℕ)
    (h : pickBestL m cs 0 none 0 = some b) :
    fillLoopL m bf orac (f + 1) cs =
      if (splitChildren cs b (orac cs b).1 (orac cs b).2).length < bf then
        fillLoopL m bf orac f (splitChildren cs b (orac cs b).1 (orac cs b).2)
      else splitChildren cs b (orac cs b).1 (orac cs b).2 := by
  conv_lhs => unfold fillLoopL
  rw [h]

/-- Unfolding of one `recurse` filling iteration when no child is selected. -/
theorem fillLoopR_succ_none (m bf : ℕ) (orac : List RecR → ℕ → RecR × RecR)
    (f : ℕ) (cs : List RecR) (h : pickBestR m cs 0 none none = none) :
    fillLoopR m bf orac (f + 1) cs = cs := by
  unfold fillLoopR
  rw [h]

/-- Unfolding of one `createLargeLeaf` filling iteration when no child is
selected. -/
theorem fillLoopL_succ_none (m bf : ℕ) (orac : List RecL → ℕ → RecL × RecL)
    (f : ℕ) (cs : List RecL) (h : pickBestL m cs 0 none 0 = none) :
    fillLoopL m bf orac (f + 1) cs = cs := by
  unfold fillLoopL
  rw [h]

/-- The filling loop of `recurse` never shrinks the child list. -/
theorem fillLoopR_length_ge (m bf : ℕ) (orac : List RecR → ℕ → RecR × RecR) :
    ∀ fuel cs, cs.length ≤ (fillLoopR m bf orac fuel cs).length := by
  intro fuel
  induction fuel with
  | zero =>
    intro cs
    exact Nat.le_refl _
  | succ f ih =>
    intro cs
    cases h : pickBestR m cs 0 none none with
    | none =>
      rw [fillLoopR_succ_none m bf orac f cs h]
    | some b =>
      rw [fillLoopR_succ_some m bf orac f cs b h]
      by_cases hlt : (splitChildren cs b (orac cs b).1 (orac cs b).2).length < bf
      · rw [if_pos hlt]
        have := ih (splitChildren cs b (orac cs b).1 (orac cs b).2)
        rw [splitChildren_length] at this
        omega
      · rw [if_neg hlt, splitChildren_length]
        omega

/-- Entering the filling loop of `recurse` with a non-full list keeps the list
within the branching factor. -/
theorem fillLoopR_length_le (m bf : ℕ) (orac : List RecR → ℕ → RecR × RecR) :
    ∀ fuel cs, cs.length < bf → (fillLoopR m bf orac fuel cs).length ≤ bf := by
  intro fuel
  induction fuel with
  | zero =>
    intro cs h
    exact Nat.le_of_lt h
  | succ f ih =>
    intro cs h
    cases hp : pickBestR m cs 0 none none with
    | none =>
      rw [fillLoopR_succ_none m bf orac f cs hp]
      exact Nat.le_of_lt h
    | some b =>
      rw [fillLoopR_succ_some m bf orac f cs b hp]
      by_cases hlt : (splitChildren cs b (orac cs b).1 (orac cs b).2).length < bf
      · rw [if_pos hlt]
        exact ih _ hlt
      · rw [if_neg hlt, splitChildren_length]
        omega

/-- The filling loop of `createLargeLeaf` never shrinks the child list. -/
theorem fillLoopL_length_ge (m bf : ℕ) (orac : List RecL → ℕ → RecL × RecL) :
    ∀ fuel cs, cs.length ≤ (fillLoopL m bf orac fuel cs).length := by
  intro fuel
  induction fuel with
  | zero =>
    intro cs
    exact Nat.le_refl _
  | succ f ih =>
    intro cs
    cases h : pickBestL m cs 0 none 0 with
    | none =>
      rw [fillLoopL_succ_none m bf orac f cs h]
    | some b =>
      rw [fillLoopL_succ_some m bf orac f cs b h]
      by_cases hlt : (splitChildren cs b (orac cs b).1 (orac cs b).2).length < bf
      · rw [if_pos hlt]
        have := ih (splitChildren cs b (orac cs b).1 (orac cs b).2)
        rw [splitChildren_length] at this
        omega
      · rw [if_neg hlt, splitChildren_length]
        omega

/-- Entering the filling loop of `createLargeLeaf` with a non-full list keeps
the list within the branching factor. -/
theorem fillLoopL_length_le (m bf : ℕ) (orac : List RecL → ℕ → RecL × RecL) :
    ∀ fuel cs, cs.length < bf → (fillLoopL m bf orac fuel cs).length ≤ bf := by
  intro fuel
  induction fuel with
  | zero =>
    intro cs h
    exact Nat.le_of_lt h
  | succ f ih =>
    intro cs h
    cases hp : pickBestL m cs 0 none 0 with
    | none =>
      rw [fillLoopL_succ_none m bf orac f cs hp]
      exact Nat.le_of_lt h
    | some b =>
      rw [fillLoopL_succ_some m bf orac f cs b hp]
      by_cases hlt : (splitChildren cs b (orac cs b).1 (orac cs b).2).length < bf
      · rw [if_pos hlt]
        exact ih _ hlt
      · rw [if_neg hlt, splitChildren_length]
        omega

/-- On the singleton list seeding the `recurse` filling loop, a record with
more than `minLeafSize` primitives is selected for splitting. -/
theorem pickBestR_singleton (m : ℕ) (seed : RecR) (h : m < seed.size) :
    pickBestR m [seed] 0 none none = some 0 := by
  unfold pickBestR
  rw [if_neg (not_le.mpr h)]
  rfl

/-- On the singleton list seeding the `createLargeLeaf` filling loop, a
non-empty record that is not a plain leaf is selected for splitting. -/
theorem pickBestL_singleton (m : ℕ) (seed : RecL)
    (hns : ¬ (seed.size ≤ m ∧ seed.temporal = false)) (hpos : 1 ≤ seed.size) :
    pickBestL m [seed] 0 none 0 = some 0 := by
  unfold pickBestL
  rw [if_neg hns, if_pos (by omega)]
  rfl

/-- Claim C4: bounded fanout.  Under `2 ≤ branchingFactor ≤ 8`, each of the two
child-filling loops, seeded with a record that is splittable on entry (for
`recurse`: `pinfo.size > minLeafSize`, which is the negation of the leaf
condition's first disjunct; for `createLargeLeaf`: not a plain leaf and
non-empty, which holds on entry since a temporal fallback split implies at
least one primitive), produces a child list passed to `createNode` with
between 2 and `branchingFactor` entries. -/
theorem bounded_fanout (bf minLeafSize maxLeafSize : ℕ)
    (hbf2 : 2 ≤ bf) (hbf8 : bf ≤ MAX_BRANCHING_FACTOR)
    (oracR : List RecR → ℕ → RecR × RecR) (oracL : List RecL → ℕ → RecL × RecL)
    (fuel : ℕ) (hfuel : 1 ≤ fuel)
    (seedR : RecR) (hseedR : minLeafSize < seedR.size)
    (seedL : RecL)
    (hseedL : maxLeafSize < seedL.size ∨ (seedL.temporal = true ∧ 1 ≤ seedL.size)) :
    (2 ≤ (fillLoopR minLeafSize bf oracR fuel [seedR]).length ∧
      (fillLoopR minLeafSize bf oracR fuel [seedR]).length ≤ bf) ∧
    (2 ≤ (fillLoopL maxLeafSize bf oracL fuel [seedL]).length ∧
      (fillLoopL maxLeafSize bf oracL fuel [seedL]).length ≤ bf) := by
  obtain ⟨f, rfl⟩ : ∃ f, fuel = f + 1 := ⟨fuel - 1, by omega⟩
  constructor
  · have hsel := pickBestR_singleton minLeafSize seedR hseedR
    rw [fillLoopR_succ_some minLeafSize bf oracR f [seedR] 0 hsel]
    have hlen : (splitChildren [seedR] 0 (oracR [seedR] 0).1
        (oracR [seedR] 0).2).length = 2 := by
      rw [splitChildren_length]
      rfl
    by_cases hlt : (splitChildren [seedR] 0 (oracR [seedR] 0).1
        (oracR [seedR] 0).2).length < bf
    · rw [if_pos hlt]
      constructor
      · have := fillLoopR_length_ge minLeafSize bf oracR f
          (splitChildren [seedR] 0 (oracR [seedR] 0).1 (oracR [seedR] 0).2)
        omega
      · exact fillLoopR_length_le minLeafSize bf oracR f _ hlt
    · rw [if_neg hlt]
      omega
  · have hns : ¬ (seedL.size ≤ maxLeafSize ∧ seedL.temporal = false) := by
      rcases hseedL with h | ⟨h, _⟩
      · intro hc
        omega
      · intro hc
        rw [h] at hc
        exact Bool.noConfusion hc.2
    have hpos : 1 ≤ seedL.size := by
      rcases hseedL with h | ⟨_, h⟩ <;> omega
    have hsel := pickBestL_singleton maxLeafSize seedL hns hpos
    rw [fillLoopL_succ_some maxLeafSize bf oracL f [seedL] 0 hsel]
    have hlen : (splitChildren [seedL] 0 (oracL [seedL] 0).1
        (oracL [seedL] 0).2).length = 2 := by
      rw [splitChildren_length]
      rfl
    by_cases hlt : (splitChildren [seedL] 0 (oracL [seedL] 0).1
        (oracL [seedL] 0).2).length < bf
    · rw [if_pos hlt]
      constructor
      · have := fillLoopL_length_ge maxLeafSize bf oracL f
          (splitChildren [seedL] 0 (oracL [seedL] 0).1 (oracL [seedL] 0).2)
        omega
      · exact fillLoopL_length_le maxLeafSize bf oracL f _ hlt
    · rw [if_neg hlt]
      omega

/-- Witness for C4: with branching factor 2 and unit oracles, both loops
produce exactly two children from a splittable seed. -/
theorem bounded_fanout_witness :
    (2 ≤ (fillLoopR 0 2 (fun _ _ => (⟨1, 0⟩, ⟨1, 0⟩)) 1 [⟨1, 0⟩]).length ∧
      (fillLoopR 0 2 (fun _ _ => (⟨1, 0⟩, ⟨1, 0⟩)) 1 [⟨1, 0⟩]).length ≤ 2) ∧
    (2 ≤ (fillLoopL 0 2 (fun _ _ => (⟨1, false⟩, ⟨1, false⟩)) 1 [⟨1, false⟩]).length ∧
      (fillLoopL 0 2 (fun _ _ => (⟨1, false⟩, ⟨1, false⟩)) 1 [⟨1, false⟩]).length ≤ 2) :=
  bounded_fanout 2 0 0 (by decide) (by decide)
    (fun _ _ => (⟨1, 0⟩, ⟨1, 0⟩)) (fun _ _ => (⟨1, false⟩, ⟨1, false⟩))
    1 (by decide) ⟨1, 0⟩ (by decide) ⟨1, false⟩ (Or.inl (by decide))

/-! ### Slot-count bookkeeping -/

/-- Lemma: `slotCountF` only depends on the assignment below `n`. -/
theorem slotCountF_congr (n : ℕ) (pv pv' : ℕ → ℕ) (j : ℕ)
    (h : ∀ i < n, pv i = pv' i) : slotCountF n pv j = slotCountF n pv' j := by
  unfold slotCountF
  exact Finset.sum_congr rfl (fun i hi => by rw [h i (Finset.mem_range.mp hi)])

/-- Peeling the last slot off `slotCountF`. -/
theorem slotCountF_succ (n : ℕ) (pv : ℕ → ℕ) (j : ℕ) :
    slotCountF (n + 1) pv j = slotCountF n pv j + (if pv n = j then 1 else 0) := by
  unfold slotCountF
  exact Finset.sum_range_succ _ n

/-- Re-pointing one slot moves one unit of slot count from the old target to
the new target. -/
theorem slotCountF_update (n a v j : ℕ) (pv : ℕ → ℕ) (ha : a < n) :
    slotCountF n (Function.update pv a v) j + (if pv a = j then 1 else 0) =
      slotCountF n pv j + (if v = j then 1 else 0) := by
  have hmem : a ∈ Finset.range n := Finset.mem_range.mpr ha
  have h1 : slotCountF n (Function.update pv a v) j =
      (if v = j then 1 else 0) +
        ∑ i ∈ Finset.range n \ {a}, (if pv i = j then 1 else 0) := by
    unfold slotCountF
    rw [← Finset.sum_update_of_mem hmem (fun i => if pv i = j then 1 else 0)
      (if v = j then 1 else 0)]
    refine Finset.sum_congr rfl ?_
    intro i _
    by_cases hi : i = a
    · subst hi
      simp [Function.update_same]
    · simp [Function.update_noteq hi]
  have h2 : slotCountF n pv j =
      ∑ i ∈ Finset.range n \ {a}, (if pv i = j then 1 else 0) +
        (if pv a = j then 1 else 0) :=
    Finset.sum_eq_sum_diff_singleton_add hmem _
  omega

/-- A slot pointing at `j` witnesses a positive slot count. -/
theorem slotCountF_pos (n a j : ℕ) (pv : ℕ → ℕ) (ha : a < n) (hpv : pv a = j) :
    1 ≤ slotCountF n pv j := by
  have h : (if pv a = j then 1 else 0 : ℕ) ≤
      ∑ i ∈ Finset.range n, (if pv i = j then 1 else 0) :=
    @Finset.single_le_sum ℕ ℕ _ (fun i => if pv i = j then 1 else 0)
      (Finset.range n) (fun i _ => Nat.zero_le _) a (Finset.mem_range.mpr ha)
  unfold slotCountF
  rw [hpv] at h
  simpa using h

/-- Pool indices above every slot assignment have slot count zero. -/
theorem slotCountF_zero_of_big (n N j : ℕ) (pv : ℕ → ℕ)
    (hlt : ∀ i < n, pv i < N) (hj : N ≤ j) : slotCountF n pv j = 0 := by
  unfold slotCountF
  refine Finset.sum_eq_zero ?_
  intro i hi
  have := hlt i (Finset.mem_range.mp hi)
  rw [if_neg (show ¬ pv i = j by omega)]

/-! ### Explicit descriptions of `split` in its four sharing cases -/

/-- Re-pointing a slot to the reused pre-split vector. -/
theorem assignChildVec_reuse (s : ChildList) (slot p b : ℕ)
    (h : p = (s.vecs b).ptr) :
    assignChildVec s slot p b =
      { s with
        vecs := Function.update s.vecs b
          ⟨(s.vecs b).ptr, (s.vecs b).refCount + 1, (s.vecs b).freeCount⟩
        primvecs := Function.update s.primvecs slot b } := by
  unfold assignChildVec incRefAt
  rw [if_pos h]

/-- Re-pointing a slot to a freshly allocated vector. -/
theorem assignChildVec_fresh (s : ChildList) (slot p b : ℕ)
    (h : ¬ p = (s.vecs b).ptr) :
    assignChildVec s slot p b =
      { s with
        vecs := Function.update s.vecs s.numSharedPrimVecs ⟨p, 1, 0⟩
        numSharedPrimVecs := s.numSharedPrimVecs + 1
        primvecs := Function.update s.primvecs slot s.numSharedPrimVecs } := by
  unfold assignChildVec allocVec
  rw [if_neg h]

/-- Description of `split` when both child records reuse the pre-split array (object or
fallback splits): the pre-split vector gains one net reference. -/
theorem splitCL_desc_RR (s : ChildList) (bc l r : ℕ)
    (hl : l = (s.vecs (s.primvecs bc)).ptr)
    (hr : r = (s.vecs (s.primvecs bc)).ptr) :
    splitCL s bc l r =
      { numChildren := s.numChildren + 1
        numSharedPrimVecs := s.numSharedPrimVecs
        children := Function.update (Function.update s.children bc l)
          s.numChildren r
        primvecs := Function.update
          (Function.update s.primvecs bc (s.primvecs bc))
          s.numChildren (s.primvecs bc)
        vecs := Function.update s.vecs (s.primvecs bc)
          ⟨(s.vecs (s.primvecs bc)).ptr, (s.vecs (s.primvecs bc)).refCount + 1,
            (s.vecs (s.primvecs bc)).freeCount⟩ } := by
  simp only [splitCL]
  rw [assignChildVec_reuse s bc l (s.primvecs bc) hl]
  rw [assignChildVec_reuse _ s.numChildren r (s.primvecs bc)
    (by simpa using hr)]
  simp only [Function.update_idem, Function.update_same]
  unfold decRefAt
  simp only [Function.update_same, Function.update_idem]
  rw [if_neg (by omega)]
  simp

/-- Description of `split` when the left record carries a fresh array and the right record
reuses the pre-split array (the left incRef is replaced by an allocation). -/
theorem splitCL_desc_FR (s : ChildList) (bc l r : ℕ)
    (hBN : s.primvecs bc < s.numSharedPrimVecs)
    (hl : ¬ l = (s.vecs (s.primvecs bc)).ptr)
    (hr : r = (s.vecs (s.primvecs bc)).ptr)
    (hrc : (s.vecs (s.primvecs bc)).refCount ≠ 0) :
    splitCL s bc l r =
      { numChildren := s.numChildren + 1
        numSharedPrimVecs := s.numSharedPrimVecs + 1
        children := Function.update (Function.update s.children bc l)
          s.numChildren r
        primvecs := Function.update
          (Function.update s.primvecs bc s.numSharedPrimVecs)
          s.numChildren (s.primvecs bc)
        vecs := Function.update
          (Function.update s.vecs s.numSharedPrimVecs ⟨l, 1, 0⟩)
          (s.primvecs bc)
          ⟨(s.vecs (s.primvecs bc)).ptr, (s.vecs (s.primvecs bc)).refCount,
            (s.vecs (s.primvecs bc)).freeCount⟩ } := by
  have hne : s.primvecs bc ≠ s.numSharedPrimVecs := by omega
  simp only [splitCL]
  rw [assignChildVec_fresh s bc l (s.primvecs bc) hl]
  rw [assignChildVec_reuse
    { s with
      vecs := Function.update s.vecs s.numSharedPrimVecs ⟨l, 1, 0⟩
      numSharedPrimVecs := s.numSharedPrimVecs + 1
      primvecs := Function.update s.primvecs bc s.numSharedPrimVecs }
    s.numChildren r (s.primvecs bc)
    (by
      show r = ((Function.update s.vecs s.numSharedPrimVecs
        (⟨l, 1, 0⟩ : SharedVec)) (s.primvecs bc)).ptr
      rw [Function.update_noteq hne]
      exact hr)]
  unfold decRefAt
  simp only [Function.update_same, Function.update_idem,
    Function.update_noteq hne]
  rw [if_neg (by omega)]
  simp

/-- Description of `split` when the left record reuses the pre-split array and the right
record carries a fresh array. -/
theorem splitCL_desc_RF (s : ChildList) (bc l r : ℕ)
    (hBN : s.primvecs bc < s.numSharedPrimVecs)
    (hl : l = (s.vecs (s.primvecs bc)).ptr)
    (hr : ¬ r = (s.vecs (s.primvecs bc)).ptr)
    (hrc : (s.vecs (s.primvecs bc)).refCount ≠ 0) :
    splitCL s bc l r =
      { numChildren := s.numChildren + 1
        numSharedPrimVecs := s.numSharedPrimVecs + 1
        children := Function.update (Function.update s.children bc l)
          s.numChildren r
        primvecs := Function.update
          (Function.update s.primvecs bc (s.primvecs bc))
          s.numChildren s.numSharedPrimVecs
        vecs := Function.update
          (Function.update s.vecs s.numSharedPrimVecs ⟨r, 1, 0⟩)
          (s.primvecs bc)
          ⟨(s.vecs (s.primvecs bc)).ptr, (s.vecs (s.primvecs bc)).refCount,
            (s.vecs (s.primvecs bc)).freeCount⟩ } := by
  have hne : s.primvecs bc ≠ s.numSharedPrimVecs := by omega
  simp only [splitCL]
  rw [assignChildVec_reuse s bc l (s.primvecs bc) hl]
  rw [assignChildVec_fresh
    { s with
      vecs := Function.update s.vecs (s.primvecs bc)
        ⟨(s.vecs (s.primvecs bc)).ptr, (s.vecs (s.primvecs bc)).refCount + 1,
          (s.vecs (s.primvecs bc)).freeCount⟩
      primvecs := Function.update s.primvecs bc (s.primvecs bc) }
    s.numChildren r (s.primvecs bc)
    (by
      show ¬ r = ((Function.update s.vecs (s.primvecs bc)
        (⟨(s.vecs (s.primvecs bc)).ptr, (s.vecs (s.primvecs bc)).refCount + 1,
          (s.vecs (s.primvecs bc)).freeCount⟩ : SharedVec)) (s.primvecs bc)).ptr
      rw [Function.update_same]
      exact hr)]
  unfold decRefAt
  simp only [Function.update_same, Function.update_idem,
    Function.update_noteq hne]
  rw [if_neg (by omega)]
  rw [Function.update_comm hne]
  simp

/-- Description of `split` when both records carry fresh arrays (temporal splits): two fresh
vectors are allocated and the pre-split vector is released, freeing it when
the released reference was the last one. -/
theorem splitCL_desc_FF (s : ChildList) (bc l r : ℕ)
    (hBN : s.primvecs bc < s.numSharedPrimVecs)
    (hl : ¬ l = (s.vecs (s.primvecs bc)).ptr)
    (hr : ¬ r = (s.vecs (s.primvecs bc)).ptr) :
    splitCL s bc l r =
      { numChildren := s.numChildren + 1
        numSharedPrimVecs := s.numSharedPrimVecs + 2
        children := Function.update (Function.update s.children bc l)
          s.numChildren r
        primvecs := Function.update
          (Function.update s.primvecs bc s.numSharedPrimVecs)
          s.numChildren (s.numSharedPrimVecs + 1)
        vecs := Function.update
          (Function.update
            (Function.update s.vecs s.numSharedPrimVecs ⟨l, 1, 0⟩)
            (s.numSharedPrimVecs + 1) ⟨r, 1, 0⟩)
          (s.primvecs bc)
          (if (s.vecs (s.primvecs bc)).refCount - 1 = 0 then
            ⟨(s.vecs (s.primvecs bc)).ptr, 0,
              (s.vecs (s.primvecs bc)).freeCount + 1⟩
          else
            ⟨(s.vecs (s.primvecs bc)).ptr, (s.vecs (s.primvecs bc)).refCount - 1,
              (s.vecs (s.primvecs bc)).freeCount⟩) } := by
  have hne : s.primvecs bc ≠ s.numSharedPrimVecs := by omega
  have hne2 : s.primvecs bc ≠ s.numSharedPrimVecs + 1 := by omega
  simp only [splitCL]
  rw [assignChildVec_fresh s bc l (s.primvecs bc) hl]
  rw [assignChildVec_fresh
    { s with
      vecs := Function.update s.vecs s.numSharedPrimVecs ⟨l, 1, 0⟩
      numSharedPrimVecs := s.numSharedPrimVecs + 1
      primvecs := Function.update s.primvecs bc s.numSharedPrimVecs }
    s.numChildren r (s.primvecs bc)
    (by
      show ¬ r = ((Function.update s.vecs s.numSharedPrimVecs
        (⟨l, 1, 0⟩ : SharedVec)) (s.primvecs bc)).ptr
      rw [Function.update_noteq hne]
      exact hr)]
  unfold decRefAt
  simp only [Function.update_same, Function.update_idem,
    Function.update_noteq hne, Function.update_noteq hne2]

/-- Slot-count change across a `split`: the pre-split slot assignment loses
the unit at `pv bc` and gains units at the two new targets. -/
theorem slotCountF_split (n bc lv rv j : ℕ) (pv : ℕ → ℕ) (hbc : bc < n) :
    slotCountF (n + 1) (Function.update (Function.update pv bc lv) n rv) j
        + (if pv bc = j then 1 else 0) =
      slotCountF n pv j + (if lv = j then 1 else 0) + (if rv = j then 1 else 0) := by
  have h1 := slotCountF_succ n (Function.update (Function.update pv bc lv) n rv) j
  have h2 : slotCountF n (Function.update (Function.update pv bc lv) n rv) j =
      slotCountF n (Function.update pv bc lv) j :=
    slotCountF_congr n _ _ j
      (fun i hi => Function.update_noteq (by omega) _ _)
  have h3 := slotCountF_update n bc lv j pv hbc
  have h4 : (Function.update (Function.update pv bc lv) n rv) n = rv :=
    Function.update_same _ _ _
  rw [h4] at h1
  omega

/-- The constructor state satisfies the reference-counting invariant. -/
theorem clinv_init (F p : ℕ) (hF : 1 ≤ F) : CLInv F (initCL p) := by
  have hslot : slotCount (initCL p) 0 = 1 := by
    simp [slotCount, slotCountF, initCL]
  refine ⟨Nat.le_refl 1, hF, ?_, ?_, ?_, ?_, ?_, ?_⟩
  · intro i hi
    show (0 : ℕ) < 1
    omega
  · intro i hi
    show p = ((initCL p).vecs 0).ptr
    show p = (if (0 : ℕ) = 0 then (⟨p, 2, 0⟩ : SharedVec) else ⟨0, 0, 0⟩).ptr
    rw [if_pos rfl]
  · intro j hj
    have hj0 : j = 0 := by
      have : j < 1 := hj
      omega
    subst hj0
    show ((if (0 : ℕ) = 0 then (⟨p, 2, 0⟩ : SharedVec) else ⟨0, 0, 0⟩)).refCount =
      slotCount (initCL p) 0 + outsideHolders 0
    rw [if_pos rfl, hslot]
    rfl
  · intro j hj
    have hj0 : j = 0 := by
      have : j < 1 := hj
      omega
    subst hj0
    show ((if (0 : ℕ) = 0 then (⟨p, 2, 0⟩ : SharedVec) else ⟨0, 0, 0⟩)).freeCount =
      if slotCount (initCL p) 0 + outsideHolders 0 = 0 then 1 else 0
    rw [if_pos rfl, hslot]
    rfl
  · intro j hj k hk h
    have : j < 1 := hj
    have : k < 1 := hk
    omega
  · show (1 : ℕ) ≤ 2 * 1 - 1
    omega

/-- Projection of a `SharedVec` literal. -/
theorem sharedVec_mk_ptr (a b c : ℕ) : (SharedVec.mk a b c).ptr = a := rfl

/-- Projection of a `SharedVec` literal. -/
theorem sharedVec_mk_refCount (a b c : ℕ) : (SharedVec.mk a b c).refCount = b := rfl

/-- Projection of a `SharedVec` literal. -/
theorem sharedVec_mk_freeCount (a b c : ℕ) : (SharedVec.mk a b c).freeCount = c := rfl

/-- The reference-counting invariant is preserved by every valid `split`. -/
theorem clinv_step (F : ℕ) {s : ChildList} {bc l r : ℕ}
    (inv : CLInv F s) (vs : ValidSplit F s bc l r) :
    CLInv F (splitCL s bc l r) := by
  obtain ⟨hb, hcap, hlv, hrv, hlr⟩ := vs
  obtain ⟨cpos, nc_le, pv_lt, child_ptr, refcount, freecount, ptr_inj, vec_bound⟩ := inv
  have hBN : s.primvecs bc < s.numSharedPrimVecs := pv_lt bc hb
  have hslotB : 1 ≤ slotCountF s.numChildren s.primvecs (s.primvecs bc) :=
    slotCountF_pos s.numChildren bc (s.primvecs bc) s.primvecs hb rfl
  have hrcB0 := refcount (s.primvecs bc) hBN
  have hfcB0 := freecount (s.primvecs bc) hBN
  simp only [slotCount] at hrcB0 hfcB0
  have hrcB : (s.vecs (s.primvecs bc)).refCount ≠ 0 := by omega
  by_cases hl : l = (s.vecs (s.primvecs bc)).ptr
  · by_cases hr : r = (s.vecs (s.primvecs bc)).ptr
    · -- object or fallback split on both sides: the pre-split vector is reused
      rw [splitCL_desc_RR s bc l r hl hr]
      refine ⟨?_, ?_, ?_, ?_, ?_, ?_, ?_, ?_⟩
      · show 1 ≤ s.numChildren + 1
        omega
      · show s.numChildren + 1 ≤ F
        omega
      · show ∀ i < s.numChildren + 1,
          Function.update (Function.update s.primvecs bc (s.primvecs bc))
            s.numChildren (s.primvecs bc) i < s.numSharedPrimVecs
        intro i hi
        by_cases hin : i = s.numChildren
        · subst hin
          rw [Function.update_same]
          exact hBN
        · rw [Function.update_noteq hin]
          by_cases hib : i = bc
          · subst hib
            rw [Function.update_same]
            exact hBN
          · rw [Function.update_noteq hib]
            exact pv_lt i (by omega)
      · show ∀ i < s.numChildren + 1,
          Function.update (Function.update s.children bc l) s.numChildren r i =
            ((Function.update s.vecs (s.primvecs bc)
              ⟨(s.vecs (s.primvecs bc)).ptr, (s.vecs (s.primvecs bc)).refCount + 1,
                (s.vecs (s.primvecs bc)).freeCount⟩)
              (Function.update (Function.update s.primvecs bc (s.primvecs bc))
                s.numChildren (s.primvecs bc) i)).ptr
        intro i hi
        by_cases hin : i = s.numChildren
        · subst hin
          rw [Function.update_same, Function.update_same, Function.update_same,
            sharedVec_mk_ptr]
          exact hr
        · rw [Function.update_noteq hin, Function.update_noteq hin]
          by_cases hib : i = bc
          · subst hib
            rw [Function.update_same, Function.update_same, Function.update_same,
              sharedVec_mk_ptr]
            exact hl
          · rw [Function.update_noteq hib, Function.update_noteq hib]
            by_cases hpB : s.primvecs i = s.primvecs bc
            · rw [hpB, Function.update_same, sharedVec_mk_ptr]
              rw [child_ptr i (by omega), hpB]
            · rw [Function.update_noteq hpB]
              exact child_ptr i (by omega)
      · show ∀ j < s.numSharedPrimVecs,
          ((Function.update s.vecs (s.primvecs bc)
            ⟨(s.vecs (s.primvecs bc)).ptr, (s.vecs (s.primvecs bc)).refCount + 1,
              (s.vecs (s.primvecs bc)).freeCount⟩) j).refCount =
            slotCountF (s.numChildren + 1)
              (Function.update (Function.update s.primvecs bc (s.primvecs bc))
                s.numChildren (s.primvecs bc)) j + outsideHolders j
        intro j hj
        have hsp := slotCountF_split s.numChildren bc (s.primvecs bc)
          (s.primvecs bc) j s.primvecs hb
        have hrcj := refcount j hj
        simp only [slotCount] at hrcj
        by_cases hjB : s.primvecs bc = j
        · subst hjB
          rw [Function.update_same, sharedVec_mk_refCount]
          rw [if_pos (rfl : s.primvecs bc = s.primvecs bc)] at hsp
          omega
        · rw [Function.update_noteq (Ne.symm hjB)]
          rw [if_neg hjB] at hsp
          omega
      · show ∀ j < s.numSharedPrimVecs,
          ((Function.update s.vecs (s.primvecs bc)
            ⟨(s.vecs (s.primvecs bc)).ptr, (s.vecs (s.primvecs bc)).refCount + 1,
              (s.vecs (s.primvecs bc)).freeCount⟩) j).freeCount =
            if slotCountF (s.numChildren + 1)
              (Function.update (Function.update s.primvecs bc (s.primvecs bc))
                s.numChildren (s.primvecs bc)) j + outsideHolders j = 0
            then 1 else 0
        intro j hj
        have hsp := slotCountF_split s.numChildren bc (s.primvecs bc)
          (s.primvecs bc) j s.primvecs hb
        have hfcj := freecount j hj
        simp only [slotCount] at hfcj
        by_cases hjB : s.primvecs bc = j
        · subst hjB
          rw [Function.update_same, sharedVec_mk_freeCount]
          rw [if_pos (rfl : s.primvecs bc = s.primvecs bc)] at hsp
          rw [if_neg (by omega)]
          rw [if_neg (by omega)] at hfcB0
          exact hfcB0
        · rw [Function.update_noteq (Ne.symm hjB)]
          rw [if_neg hjB] at hsp
          have heq : slotCountF (s.numChildren + 1)
              (Function.update (Function.update s.primvecs bc (s.primvecs bc))
                s.numChildren (s.primvecs bc)) j =
              slotCountF s.numChildren s.primvecs j := by omega
          rw [heq]
          exact hfcj
      · show ∀ j < s.numSharedPrimVecs, ∀ k < s.numSharedPrimVecs,
          ((Function.update s.vecs (s.primvecs bc)
            ⟨(s.vecs (s.primvecs bc)).ptr, (s.vecs (s.primvecs bc)).refCount + 1,
              (s.vecs (s.primvecs bc)).freeCount⟩) j).ptr =
          ((Function.update s.vecs (s.primvecs bc)
            ⟨(s.vecs (s.primvecs bc)).ptr, (s.vecs (s.primvecs bc)).refCount + 1,
              (s.vecs (s.primvecs bc)).freeCount⟩) k).ptr → j = k
        have hptr : ∀ m, ((Function.update s.vecs (s.primvecs bc)
            ⟨(s.vecs (s.primvecs bc)).ptr, (s.vecs (s.primvecs bc)).refCount + 1,
              (s.vecs (s.primvecs bc)).freeCount⟩) m).ptr = (s.vecs m).ptr := by
          intro m
          by_cases hm : m = s.primvecs bc
          · subst hm
            rw [Function.update_same, sharedVec_mk_ptr]
          · rw [Function.update_noteq hm]
        intro j hj k hk h
        rw [hptr, hptr] at h
        exact ptr_inj j hj k hk h
      · show s.numSharedPrimVecs ≤ 2 * (s.numChildren + 1) - 1
        omega
    · -- temporal split on the right side: right record carries a fresh array
      have hfreshr : FreshPtr s r := hrv.resolve_left hr
      have hslotN : slotCountF s.numChildren s.primvecs s.numSharedPrimVecs = 0 :=
        slotCountF_zero_of_big s.numChildren s.numSharedPrimVecs
          s.numSharedPrimVecs s.primvecs pv_lt (Nat.le_refl _)
      have houtN : outsideHolders s.numSharedPrimVecs = 0 := by
        unfold outsideHolders
        rw [if_neg (by omega)]
      rw [splitCL_desc_RF s bc l r hBN hl hr hrcB]
      refine ⟨?_, ?_, ?_, ?_, ?_, ?_, ?_, ?_⟩
      · show 1 ≤ s.numChildren + 1
        omega
      · show s.numChildren + 1 ≤ F
        omega
      · show ∀ i < s.numChildren + 1,
          Function.update (Function.update s.primvecs bc (s.primvecs bc))
            s.numChildren s.numSharedPrimVecs i < s.numSharedPrimVecs + 1
        intro i hi
        by_cases hin : i = s.numChildren
        · subst hin
          rw [Function.update_same]
          omega
        · rw [Function.update_noteq hin]
          by_cases hib : i = bc
          · subst hib
            rw [Function.update_same]
            omega
          · rw [Function.update_noteq hib]
            have := pv_lt i (by omega)
            omega
      · show ∀ i < s.numChildren + 1,
          Function.update (Function.update s.children bc l) s.numChildren r i =
            ((Function.update
              (Function.update s.vecs s.numSharedPrimVecs ⟨r, 1, 0⟩)
              (s.primvecs bc)
              ⟨(s.vecs (s.primvecs bc)).ptr, (s.vecs (s.primvecs bc)).refCount,
                (s.vecs (s.primvecs bc)).freeCount⟩)
              (Function.update (Function.update s.primvecs bc (s.primvecs bc))
                s.numChildren s.numSharedPrimVecs i)).ptr
        intro i hi
        by_cases hin : i = s.numChildren
        · subst hin
          rw [Function.update_same, Function.update_same,
            Function.update_noteq (show s.numSharedPrimVecs ≠ s.primvecs bc by omega),
            Function.update_same, sharedVec_mk_ptr]
        · rw [Function.update_noteq hin, Function.update_noteq hin]
          by_cases hib : i = bc
          · subst hib
            rw [Function.update_same, Function.update_same, Function.update_same,
              sharedVec_mk_ptr]
            exact hl
          · rw [Function.update_noteq hib, Function.update_noteq hib]
            have hpiN : s.primvecs i < s.numSharedPrimVecs := pv_lt i (by omega)
            by_cases hpB : s.primvecs i = s.primvecs bc
            · rw [hpB, Function.update_same, sharedVec_mk_ptr]
              rw [child_ptr i (by omega), hpB]
            · rw [Function.update_noteq hpB,
                Function.update_noteq (show s.primvecs i ≠ s.numSharedPrimVecs by omega)]
              exact child_ptr i (by omega)
      · show ∀ j < s.numSharedPrimVecs + 1,
          ((Function.update
            (Function.update s.vecs s.numSharedPrimVecs ⟨r, 1, 0⟩)
            (s.primvecs bc)
            ⟨(s.vecs (s.primvecs bc)).ptr, (s.vecs (s.primvecs bc)).refCount,
              (s.vecs (s.primvecs bc)).freeCount⟩) j).refCount =
            slotCountF (s.numChildren + 1)
              (Function.update (Function.update s.primvecs bc (s.primvecs bc))
                s.numChildren s.numSharedPrimVecs) j + outsideHolders j
        intro j hj
        have hsp := slotCountF_split s.numChildren bc (s.primvecs bc)
          s.numSharedPrimVecs j s.primvecs hb
        by_cases hjN : j = s.numSharedPrimVecs
        · subst hjN
          rw [if_neg (show ¬ s.primvecs bc = s.numSharedPrimVecs by omega),
            if_pos (rfl : s.numSharedPrimVecs = s.numSharedPrimVecs)] at hsp
          rw [Function.update_noteq (show s.numSharedPrimVecs ≠ s.primvecs bc by omega),
            Function.update_same, sharedVec_mk_refCount, houtN]
          omega
        · by_cases hjB : s.primvecs bc = j
          · subst hjB
            rw [if_pos (rfl : s.primvecs bc = s.primvecs bc),
              if_neg (show ¬ s.numSharedPrimVecs = s.primvecs bc by omega)] at hsp
            rw [Function.update_same, sharedVec_mk_refCount]
            omega
          · have hrcj := refcount j (by omega)
            simp only [slotCount] at hrcj
            rw [if_neg hjB, if_neg (show ¬ s.numSharedPrimVecs = j by omega)] at hsp
            rw [Function.update_noteq (Ne.symm hjB),
              Function.update_noteq (show j ≠ s.numSharedPrimVecs by omega)]
            omega
      · show ∀ j < s.numSharedPrimVecs + 1,
          ((Function.update
            (Function.update s.vecs s.numSharedPrimVecs ⟨r, 1, 0⟩)
            (s.primvecs bc)
            ⟨(s.vecs (s.primvecs bc)).ptr, (s.vecs (s.primvecs bc)).refCount,
              (s.vecs (s.primvecs bc)).freeCount⟩) j).freeCount =
            if slotCountF (s.numChildren + 1)
              (Function.update (Function.update s.primvecs bc (s.primvecs bc))
                s.numChildren s.numSharedPrimVecs) j + outsideHolders j = 0
            then 1 else 0
        intro j hj
        have hsp := slotCountF_split s.numChildren bc (s.primvecs bc)
          s.numSharedPrimVecs j s.primvecs hb
        by_cases hjN : j = s.numSharedPrimVecs
        · subst hjN
          rw [if_neg (show ¬ s.primvecs bc = s.numSharedPrimVecs by omega),
            if_pos (rfl : s.numSharedPrimVecs = s.numSharedPrimVecs)] at hsp
          rw [Function.update_noteq (show s.numSharedPrimVecs ≠ s.primvecs bc by omega),
            Function.update_same, sharedVec_mk_freeCount]
          rw [if_neg (by omega)]
        · by_cases hjB : s.primvecs bc = j
          · subst hjB
            rw [if_pos (rfl : s.primvecs bc = s.primvecs bc),
              if_neg (show ¬ s.numSharedPrimVecs = s.primvecs bc by omega)] at hsp
            rw [Function.update_same, sharedVec_mk_freeCount]
            rw [if_neg (by omega)]
            rw [if_neg (by omega)] at hfcB0
            exact hfcB0
          · have hfcj := freecount j (by omega)
            simp only [slotCount] at hfcj
            rw [if_neg hjB, if_neg (show ¬ s.numSharedPrimVecs = j by omega)] at hsp
            rw [Function.update_noteq (Ne.symm hjB),
              Function.update_noteq (show j ≠ s.numSharedPrimVecs by omega)]
            have heq : slotCountF (s.numChildren + 1)
                (Function.update (Function.update s.primvecs bc (s.primvecs bc))
                  s.numChildren s.numSharedPrimVecs) j =
                slotCountF s.numChildren s.primvecs j := by omega
            rw [heq]
            exact hfcj
      · show ∀ j < s.numSharedPrimVecs + 1, ∀ k < s.numSharedPrimVecs + 1,
          ((Function.update
            (Function.update s.vecs s.numSharedPrimVecs ⟨r, 1, 0⟩)
            (s.primvecs bc)
            ⟨(s.vecs (s.primvecs bc)).ptr, (s.vecs (s.primvecs bc)).refCount,
              (s.vecs (s.primvecs bc)).freeCount⟩) j).ptr =
          ((Function.update
            (Function.update s.vecs s.numSharedPrimVecs ⟨r, 1, 0⟩)
            (s.primvecs bc)
            ⟨(s.vecs (s.primvecs bc)).ptr, (s.vecs (s.primvecs bc)).refCount,
              (s.vecs (s.primvecs bc)).freeCount⟩) k).ptr → j = k
        have hptr : ∀ m, m < s.numSharedPrimVecs + 1 →
            ((Function.update
              (Function.update s.vecs s.numSharedPrimVecs ⟨r, 1, 0⟩)
              (s.primvecs bc)
              ⟨(s.vecs (s.primvecs bc)).ptr, (s.vecs (s.primvecs bc)).refCount,
                (s.vecs (s.primvecs bc)).freeCount⟩) m).ptr =
              if m = s.numSharedPrimVecs then r else (s.vecs m).ptr := by
          intro m hm
          by_cases hmN : m = s.numSharedPrimVecs
          · rw [if_pos hmN, hmN,
              Function.update_noteq (show s.numSharedPrimVecs ≠ s.primvecs bc by omega),
              Function.update_same, sharedVec_mk_ptr]
          · rw [if_neg hmN]
            by_cases hmB : m = s.primvecs bc
            · rw [hmB, Function.update_same, sharedVec_mk_ptr]
            · rw [Function.update_noteq hmB, Function.update_noteq hmN]
        intro j hj k hk h
        rw [hptr j hj, hptr k hk] at h
        by_cases hjN : j = s.numSharedPrimVecs
        · by_cases hkN : k = s.numSharedPrimVecs
          · rw [hjN, hkN]
          · rw [if_pos hjN, if_neg hkN] at h
            exact absurd h.symm (hfreshr k (by omega))
        · by_cases hkN : k = s.numSharedPrimVecs
          · rw [if_neg hjN, if_pos hkN] at h
            exact absurd h (hfreshr j (by omega))
          · rw [if_neg hjN, if_neg hkN] at h
            exact ptr_inj j (by omega) k (by omega) h
      · show s.numSharedPrimVecs + 1 ≤ 2 * (s.numChildren + 1) - 1
        omega
  · have hfreshl : FreshPtr s l := hlv.resolve_left hl
    have hslotN : slotCountF s.numChildren s.primvecs s.numSharedPrimVecs = 0 :=
      slotCountF_zero_of_big s.numChildren s.numSharedPrimVecs
        s.numSharedPrimVecs s.primvecs pv_lt (Nat.le_refl _)
    have houtN : outsideHolders s.numSharedPrimVecs = 0 := by
      unfold outsideHolders
      rw [if_neg (by omega)]
    by_cases hr : r = (s.vecs (s.primvecs bc)).ptr
    · -- temporal split on the left side: left record carries a fresh array
      rw [splitCL_desc_FR s bc l r hBN hl hr hrcB]
      refine ⟨?_, ?_, ?_, ?_, ?_, ?_, ?_, ?_⟩
      · show 1 ≤ s.numChildren + 1
        omega
      · show s.numChildren + 1 ≤ F
        omega
      · show ∀ i < s.numChildren + 1,
          Function.update (Function.update s.primvecs bc s.numSharedPrimVecs)
            s.numChildren (s.primvecs bc) i < s.numSharedPrimVecs + 1
        intro i hi
        by_cases hin : i = s.numChildren
        · subst hin
          rw [Function.update_same]
          omega
        · rw [Function.update_noteq hin]
          by_cases hib : i = bc
          · subst hib
            rw [Function.update_same]
            omega
          · rw [Function.update_noteq hib]
            have := pv_lt i (by omega)
            omega
      · show ∀ i < s.numChildren + 1,
          Function.update (Function.update s.children bc l) s.numChildren r i =
            ((Function.update
              (Function.update s.vecs s.numSharedPrimVecs ⟨l, 1, 0⟩)
              (s.primvecs bc)
              ⟨(s.vecs (s.primvecs bc)).ptr, (s.vecs (s.primvecs bc)).refCount,
                (s.vecs (s.primvecs bc)).freeCount⟩)
              (Function.update (Function.update s.primvecs bc s.numSharedPrimVecs)
                s.numChildren (s.primvecs bc) i)).ptr
        intro i hi
        by_cases hin : i = s.numChildren
        · subst hin
          rw [Function.update_same, Function.update_same, Function.update_same,
            sharedVec_mk_ptr]
          exact hr
        · rw [Function.update_noteq hin, Function.update_noteq hin]
          by_cases hib : i = bc
          · subst hib
            rw [Function.update_same, Function.update_same,
              Function.update_noteq (show s.numSharedPrimVecs ≠ s.primvecs i by omega),
              Function.update_same, sharedVec_mk_ptr]
          · rw [Function.update_noteq hib, Function.update_noteq hib]
            have hpiN : s.primvecs i < s.numSharedPrimVecs := pv_lt i (by omega)
            by_cases hpB : s.primvecs i = s.primvecs bc
            · rw [hpB, Function.update_same, sharedVec_mk_ptr]
              rw [child_ptr i (by omega), hpB]
            · rw [Function.update_noteq hpB,
                Function.update_noteq (show s.primvecs i ≠ s.numSharedPrimVecs by omega)]
              exact child_ptr i (by omega)
      · show ∀ j < s.numSharedPrimVecs + 1,
          ((Function.update
            (Function.update s.vecs s.numSharedPrimVecs ⟨l, 1, 0⟩)
            (s.primvecs bc)
            ⟨(s.vecs (s.primvecs bc)).ptr, (s.vecs (s.primvecs bc)).refCount,
              (s.vecs (s.primvecs bc)).freeCount⟩) j).refCount =
            slotCountF (s.numChildren + 1)
              (Function.update (Function.update s.primvecs bc s.numSharedPrimVecs)
                s.numChildren (s.primvecs bc)) j + outsideHolders j
        intro j hj
        have hsp := slotCountF_split s.numChildren bc s.numSharedPrimVecs
          (s.primvecs bc) j s.primvecs hb
        by_cases hjN : j = s.numSharedPrimVecs
        · subst hjN
          rw [if_neg (show ¬ s.primvecs bc = s.numSharedPrimVecs by omega),
            if_pos (rfl : s.numSharedPrimVecs = s.numSharedPrimVecs)] at hsp
          rw [Function.update_noteq (show s.numSharedPrimVecs ≠ s.primvecs bc by omega),
            Function.update_same, sharedVec_mk_refCount, houtN]
          omega
        · by_cases hjB : s.primvecs bc = j
          · subst hjB
            rw [if_pos (rfl : s.primvecs bc = s.primvecs bc),
              if_neg (show ¬ s.numSharedPrimVecs = s.primvecs bc by omega)] at hsp
            rw [Function.update_same, sharedVec_mk_refCount]
            omega
          · have hrcj := refcount j (by omega)
            simp only [slotCount] at hrcj
            rw [if_neg hjB, if_neg (show ¬ s.numSharedPrimVecs = j by omega)] at hsp
            rw [Function.update_noteq (Ne.symm hjB),
              Function.update_noteq (show j ≠ s.numSharedPrimVecs by omega)]
            omega
      · show ∀ j < s.numSharedPrimVecs + 1,
          ((Function.update
            (Function.update s.vecs s.numSharedPrimVecs ⟨l, 1, 0⟩)
            (s.primvecs bc)
            ⟨(s.vecs (s.primvecs bc)).ptr, (s.vecs (s.primvecs bc)).refCount,
              (s.vecs (s.primvecs bc)).freeCount⟩) j).freeCount =
            if slotCountF (s.numChildren + 1)
              (Function.update (Function.update s.primvecs bc s.numSharedPrimVecs)
                s.numChildren (s.primvecs bc)) j + outsideHolders j = 0
            then 1 else 0
        intro j hj
        have hsp := slotCountF_split s.numChildren bc s.numSharedPrimVecs
          (s.primvecs bc) j s.primvecs hb
        by_cases hjN : j = s.numSharedPrimVecs
        · subst hjN
          rw [if_neg (show ¬ s.primvecs bc = s.numSharedPrimVecs by omega),
            if_pos (rfl : s.numSharedPrimVecs = s.numSharedPrimVecs)] at hsp
          rw [Function.update_noteq (show s.numSharedPrimVecs ≠ s.primvecs bc by omega),
            Function.update_same, sharedVec_mk_freeCount]
          rw [if_neg (by omega)]
        · by_cases hjB : s.primvecs bc = j
          · subst hjB
            rw [if_pos (rfl : s.primvecs bc = s.primvecs bc),
              if_neg (show ¬ s.numSharedPrimVecs = s.primvecs bc by omega)] at hsp
            rw [Function.update_same, sharedVec_mk_freeCount]
            rw [if_neg (by omega)]
            rw [if_neg (by omega)] at hfcB0
            exact hfcB0
          · have hfcj := freecount j (by omega)
            simp only [slotCount] at hfcj
            rw [if_neg hjB, if_neg (show ¬ s.numSharedPrimVecs = j by omega)] at hsp
            rw [Function.update_noteq (Ne.symm hjB),
              Function.update_noteq (show j ≠ s.numSharedPrimVecs by omega)]
            have heq : slotCountF (s.numChildren + 1)
                (Function.update (Function.update s.primvecs bc s.numSharedPrimVecs)
                  s.numChildren (s.primvecs bc)) j =
                slotCountF s.numChildren s.primvecs j := by omega
            rw [heq]
            exact hfcj
      · show ∀ j < s.numSharedPrimVecs + 1, ∀ k < s.numSharedPrimVecs + 1,
          ((Function.update
            (Function.update s.vecs s.numSharedPrimVecs ⟨l, 1, 0⟩)
            (s.primvecs bc)
            ⟨(s.vecs (s.primvecs bc)).ptr, (s.vecs (s.primvecs bc)).refCount,
              (s.vecs (s.primvecs bc)).freeCount⟩) j).ptr =
          ((Function.update
            (Function.update s.vecs s.numSharedPrimVecs ⟨l, 1, 0⟩)
            (s.primvecs bc)
            ⟨(s.vecs (s.primvecs bc)).ptr, (s.vecs (s.primvecs bc)).refCount,
              (s.vecs (s.primvecs bc)).freeCount⟩) k).ptr → j = k
        have hptr : ∀ m, m < s.numSharedPrimVecs + 1 →
            ((Function.update
              (Function.update s.vecs s.numSharedPrimVecs ⟨l, 1, 0⟩)
              (s.primvecs bc)
              ⟨(s.vecs (s.primvecs bc)).ptr, (s.vecs (s.primvecs bc)).refCount,
                (s.vecs (s.primvecs bc)).freeCount⟩) m).ptr =
              if m = s.numSharedPrimVecs then l else (s.vecs m).ptr := by
          intro m hm
          by_cases hmN : m = s.numSharedPrimVecs
          · rw [if_pos hmN, hmN,
              Function.update_noteq (show s.numSharedPrimVecs ≠ s.primvecs bc by omega),
              Function.update_same, sharedVec_mk_ptr]
          · rw [if_neg hmN]
            by_cases hmB : m = s.primvecs bc
            · rw [hmB, Function.update_same, sharedVec_mk_ptr]
            · rw [Function.update_noteq hmB, Function.update_noteq hmN]
        intro j hj k hk h
        rw [hptr j hj, hptr k hk] at h
        by_cases hjN : j = s.numSharedPrimVecs
        · by_cases hkN : k = s.numSharedPrimVecs
          · rw [hjN, hkN]
          · rw [if_pos hjN, if_neg hkN] at h
            exact absurd h.symm (hfreshl k (by omega))
        · by_cases hkN : k = s.numSharedPrimVecs
          · rw [if_neg hjN, if_pos hkN] at h
            exact absurd h (hfreshl j (by omega))
          · rw [if_neg hjN, if_neg hkN] at h
            exact ptr_inj j (by omega) k (by omega) h
      · show s.numSharedPrimVecs + 1 ≤ 2 * (s.numChildren + 1) - 1
        omega
    · -- temporal split: both records carry fresh arrays
      have hfreshr : FreshPtr s r := hrv.resolve_left hr
      have hlr' : l ≠ r := hlr hl hr
      have hslotN1 : slotCountF s.numChildren s.primvecs (s.numSharedPrimVecs + 1) = 0 :=
        slotCountF_zero_of_big s.numChildren s.numSharedPrimVecs
          (s.numSharedPrimVecs + 1) s.primvecs pv_lt (by omega)
      have houtN1 : outsideHolders (s.numSharedPrimVecs + 1) = 0 := by
        unfold outsideHolders
        rw [if_neg (by omega)]
      have hZrc : (if (s.vecs (s.primvecs bc)).refCount - 1 = 0 then
          (⟨(s.vecs (s.primvecs bc)).ptr, 0,
            (s.vecs (s.primvecs bc)).freeCount + 1⟩ : SharedVec)
        else
          ⟨(s.vecs (s.primvecs bc)).ptr, (s.vecs (s.primvecs bc)).refCount - 1,
            (s.vecs (s.primvecs bc)).freeCount⟩).refCount =
          (s.vecs (s.primvecs bc)).refCount - 1 := by
        by_cases hz : (s.vecs (s.primvecs bc)).refCount - 1 = 0
        · rw [if_pos hz, sharedVec_mk_refCount]
          omega
        · rw [if_neg hz, sharedVec_mk_refCount]
      have hZptr : (if (s.vecs (s.primvecs bc)).refCount - 1 = 0 then
          (⟨(s.vecs (s.primvecs bc)).ptr, 0,
            (s.vecs (s.primvecs bc)).freeCount + 1⟩ : SharedVec)
        else
          ⟨(s.vecs (s.primvecs bc)).ptr, (s.vecs (s.primvecs bc)).refCount - 1,
            (s.vecs (s.primvecs bc)).freeCount⟩).ptr =
          (s.vecs (s.primvecs bc)).ptr := by
        by_cases hz : (s.vecs (s.primvecs bc)).refCount - 1 = 0
        · rw [if_pos hz, sharedVec_mk_ptr]
        · rw [if_neg hz, sharedVec_mk_ptr]
      rw [splitCL_desc_FF s bc l r hBN hl hr]
      refine ⟨?_, ?_, ?_, ?_, ?_, ?_, ?_, ?_⟩
      · show 1 ≤ s.numChildren + 1
        omega
      · show s.numChildren + 1 ≤ F
        omega
      · show ∀ i < s.numChildren + 1,
          Function.update (Function.update s.primvecs bc s.numSharedPrimVecs)
            s.numChildren (s.numSharedPrimVecs + 1) i < s.numSharedPrimVecs + 2
        intro i hi
        by_cases hin : i = s.numChildren
        · subst hin
          rw [Function.update_same]
          omega
        · rw [Function.update_noteq hin]
          by_cases hib : i = bc
          · subst hib
            rw [Function.update_same]
            omega
          · rw [Function.update_noteq hib]
            have := pv_lt i (by omega)
            omega
      · show ∀ i < s.numChildren + 1,
          Function.update (Function.update s.children bc l) s.numChildren r i =
            ((Function.update
              (Function.update
                (Function.update s.vecs s.numSharedPrimVecs ⟨l, 1, 0⟩)
                (s.numSharedPrimVecs + 1) ⟨r, 1, 0⟩)
              (s.primvecs bc)
              (if (s.vecs (s.primvecs bc)).refCount - 1 = 0 then
                ⟨(s.vecs (s.primvecs bc)).ptr, 0,
                  (s.vecs (s.primvecs bc)).freeCount + 1⟩
              else
                ⟨(s.vecs (s.primvecs bc)).ptr,
                  (s.vecs (s.primvecs bc)).refCount - 1,
                  (s.vecs (s.primvecs bc)).freeCount⟩))
              (Function.update (Function.update s.primvecs bc s.numSharedPrimVecs)
                s.numChildren (s.numSharedPrimVecs + 1) i)).ptr
        intro i hi
        by_cases hin : i = s.numChildren
        · subst hin
          rw [Function.update_same, Function.update_same,
            Function.update_noteq (show s.numSharedPrimVecs + 1 ≠ s.primvecs bc by omega),
            Function.update_same, sharedVec_mk_ptr]
        · rw [Function.update_noteq hin, Function.update_noteq hin]
          by_cases hib : i = bc
          · subst hib
            rw [Function.update_same, Function.update_same,
              Function.update_noteq (show s.numSharedPrimVecs ≠ s.primvecs i by omega),
              Function.update_noteq (show s.numSharedPrimVecs ≠ s.numSharedPrimVecs + 1 by omega),
              Function.update_same, sharedVec_mk_ptr]
          · rw [Function.update_noteq hib, Function.update_noteq hib]
            have hpiN : s.primvecs i < s.numSharedPrimVecs := pv_lt i (by omega)
            by_cases hpB : s.primvecs i = s.primvecs bc
            · rw [hpB, Function.update_same, hZptr]
              rw [child_ptr i (by omega), hpB]
            · rw [Function.update_noteq hpB,
                Function.update_noteq (show s.primvecs i ≠ s.numSharedPrimVecs + 1 by omega),
                Function.update_noteq (show s.primvecs i ≠ s.numSharedPrimVecs by omega)]
              exact child_ptr i (by omega)
      · show ∀ j < s.numSharedPrimVecs + 2,
          ((Function.update
            (Function.update
              (Function.update s.vecs s.numSharedPrimVecs ⟨l, 1, 0⟩)
              (s.numSharedPrimVecs + 1) ⟨r, 1, 0⟩)
            (s.primvecs bc)
            (if (s.vecs (s.primvecs bc)).refCount - 1 = 0 then
              ⟨(s.vecs (s.primvecs bc)).ptr, 0,
                (s.vecs (s.primvecs bc)).freeCount + 1⟩
            else
              ⟨(s.vecs (s.primvecs bc)).ptr,
                (s.vecs (s.primvecs bc)).refCount - 1,
                (s.vecs (s.primvecs bc)).freeCount⟩)) j).refCount =
            slotCountF (s.numChildren + 1)
              (Function.update (Function.update s.primvecs bc s.numSharedPrimVecs)
                s.numChildren (s.numSharedPrimVecs + 1)) j + outsideHolders j
        intro j hj
        have hsp := slotCountF_split s.numChildren bc s.numSharedPrimVecs
          (s.numSharedPrimVecs + 1) j s.primvecs hb
        by_cases hjN : j = s.numSharedPrimVecs
        · subst hjN
          rw [if_neg (show ¬ s.primvecs bc = s.numSharedPrimVecs by omega),
            if_pos (rfl : s.numSharedPrimVecs = s.numSharedPrimVecs),
            if_neg (show ¬ s.numSharedPrimVecs + 1 = s.numSharedPrimVecs by omega)] at hsp
          rw [Function.update_noteq (show s.numSharedPrimVecs ≠ s.primvecs bc by omega),
            Function.update_noteq (show s.numSharedPrimVecs ≠ s.numSharedPrimVecs + 1 by omega),
            Function.update_same, sharedVec_mk_refCount, houtN]
          omega
        · by_cases hjN1 : j = s.numSharedPrimVecs + 1
          · subst hjN1
            rw [if_neg (show ¬ s.primvecs bc = s.numSharedPrimVecs + 1 by omega),
              if_neg (show ¬ s.numSharedPrimVecs = s.numSharedPrimVecs + 1 by omega),
              if_pos (rfl : s.numSharedPrimVecs + 1 = s.numSharedPrimVecs + 1)] at hsp
            rw [Function.update_noteq (show s.numSharedPrimVecs + 1 ≠ s.primvecs bc by omega),
              Function.update_same, sharedVec_mk_refCount, houtN1]
            omega
          · by_cases hjB : s.primvecs bc = j
            · subst hjB
              rw [if_pos (rfl : s.primvecs bc = s.primvecs bc),
                if_neg (show ¬ s.numSharedPrimVecs = s.primvecs bc by omega),
                if_neg (show ¬ s.numSharedPrimVecs + 1 = s.primvecs bc by omega)] at hsp
              rw [Function.update_same, hZrc]
              omega
            · have hrcj := refcount j (by omega)
              simp only [slotCount] at hrcj
              rw [if_neg hjB, if_neg (show ¬ s.numSharedPrimVecs = j by omega),
                if_neg (show ¬ s.numSharedPrimVecs + 1 = j by omega)] at hsp
              rw [Function.update_noteq (Ne.symm hjB),
                Function.update_noteq (show j ≠ s.numSharedPrimVecs + 1 by omega),
                Function.update_noteq (show j ≠ s.numSharedPrimVecs by omega)]
              omega
      · show ∀ j < s.numSharedPrimVecs + 2,
          ((Function.update
            (Function.update
              (Function.update s.vecs s.numSharedPrimVecs ⟨l, 1, 0⟩)
              (s.numSharedPrimVecs + 1) ⟨r, 1, 0⟩)
            (s.primvecs bc)
            (if (s.vecs (s.primvecs bc)).refCount - 1 = 0 then
              ⟨(s.vecs (s.primvecs bc)).ptr, 0,
                (s.vecs (s.primvecs bc)).freeCount + 1⟩
            else
              ⟨(s.vecs (s.primvecs bc)).ptr,
                (s.vecs (s.primvecs bc)).refCount - 1,
                (s.vecs (s.primvecs bc)).freeCount⟩)) j).freeCount =
            if slotCountF (s.numChildren + 1)
              (Function.update (Function.update s.primvecs bc s.numSharedPrimVecs)
                s.numChildren (s.numSharedPrimVecs + 1)) j + outsideHolders j = 0
            then 1 else 0
        intro j hj
        have hsp := slotCountF_split s.numChildren bc s.numSharedPrimVecs
          (s.numSharedPrimVecs + 1) j s.primvecs hb
        by_cases hjN : j = s.numSharedPrimVecs
        · subst hjN
          rw [if_neg (show ¬ s.primvecs bc = s.numSharedPrimVecs by omega),
            if_pos (rfl : s.numSharedPrimVecs = s.numSharedPrimVecs),
            if_neg (show ¬ s.numSharedPrimVecs + 1 = s.numSharedPrimVecs by omega)] at hsp
          rw [Function.update_noteq (show s.numSharedPrimVecs ≠ s.primvecs bc by omega),
            Function.update_noteq (show s.numSharedPrimVecs ≠ s.numSharedPrimVecs + 1 by omega),
            Function.update_same, sharedVec_mk_freeCount]
          rw [if_neg (by omega)]
        · by_cases hjN1 : j = s.numSharedPrimVecs + 1
          · subst hjN1
            rw [if_neg (show ¬ s.primvecs bc = s.numSharedPrimVecs + 1 by omega),
              if_neg (show ¬ s.numSharedPrimVecs = s.numSharedPrimVecs + 1 by omega),
              if_pos (rfl : s.numSharedPrimVecs + 1 = s.numSharedPrimVecs + 1)] at hsp
            rw [Function.update_noteq (show s.numSharedPrimVecs + 1 ≠ s.primvecs bc by omega),
              Function.update_same, sharedVec_mk_freeCount]
            rw [if_neg (by omega)]
          · by_cases hjB : s.primvecs bc = j
            · subst hjB
              rw [if_pos (rfl : s.primvecs bc = s.primvecs bc),
                if_neg (show ¬ s.numSharedPrimVecs = s.primvecs bc by omega),
                if_neg (show ¬ s.numSharedPrimVecs + 1 = s.primvecs bc by omega)] at hsp
              rw [Function.update_same]
              rw [if_neg (by omega)] at hfcB0
              by_cases hz : (s.vecs (s.primvecs bc)).refCount - 1 = 0
              · rw [if_pos hz, sharedVec_mk_freeCount, hfcB0]
                rw [if_pos (by omega)]
              · rw [if_neg hz, sharedVec_mk_freeCount, hfcB0]
                rw [if_neg (by omega)]
            · have hfcj := freecount j (by omega)
              simp only [slotCount] at hfcj
              rw [if_neg hjB, if_neg (show ¬ s.numSharedPrimVecs = j by omega),
                if_neg (show ¬ s.numSharedPrimVecs + 1 = j by omega)] at hsp
              rw [Function.update_noteq (Ne.symm hjB),
                Function.update_noteq (show j ≠ s.numSharedPrimVecs + 1 by omega),
                Function.update_noteq (show j ≠ s.numSharedPrimVecs by omega)]
              have heq : slotCountF (s.numChildren + 1)
                  (Function.update (Function.update s.primvecs bc s.numSharedPrimVecs)
                    s.numChildren (s.numSharedPrimVecs + 1)) j =
                  slotCountF s.numChildren s.primvecs j := by omega
              rw [heq]
              exact hfcj
      · show ∀ j < s.numSharedPrimVecs + 2, ∀ k < s.numSharedPrimVecs + 2,
          ((Function.update
            (Function.update
              (Function.update s.vecs s.numSharedPrimVecs ⟨l, 1, 0⟩)
              (s.numSharedPrimVecs + 1) ⟨r, 1, 0⟩)
            (s.primvecs bc)
            (if (s.vecs (s.primvecs bc)).refCount - 1 = 0 then
              ⟨(s.vecs (s.primvecs bc)).ptr, 0,
                (s.vecs (s.primvecs bc)).freeCount + 1⟩
            else
              ⟨(s.vecs (s.primvecs bc)).ptr,
                (s.vecs (s.primvecs bc)).refCount - 1,
                (s.vecs (s.primvecs bc)).freeCount⟩)) j).ptr =
          ((Function.update
            (Function.update
              (Function.update s.vecs s.numSharedPrimVecs ⟨l, 1, 0⟩)
              (s.numSharedPrimVecs + 1) ⟨r, 1, 0⟩)
            (s.primvecs bc)
            (if (s.vecs (s.primvecs bc)).refCount - 1 = 0 then
              ⟨(s.vecs (s.primvecs bc)).ptr, 0,
                (s.vecs (s.primvecs bc)).freeCount + 1⟩
            else
              ⟨(s.vecs (s.primvecs bc)).ptr,
                (s.vecs (s.primvecs bc)).refCount - 1,
                (s.vecs (s.primvecs bc)).freeCount⟩)) k).ptr → j = k
        have hptr : ∀ m, m < s.numSharedPrimVecs + 2 →
            ((Function.update
              (Function.update
                (Function.update s.vecs s.numSharedPrimVecs ⟨l, 1, 0⟩)
                (s.numSharedPrimVecs + 1) ⟨r, 1, 0⟩)
              (s.primvecs bc)
              (if (s.vecs (s.primvecs bc)).refCount - 1 = 0 then
                ⟨(s.vecs (s.primvecs bc)).ptr, 0,
                  (s.vecs (s.primvecs bc)).freeCount + 1⟩
              else
                ⟨(s.vecs (s.primvecs bc)).ptr,
                  (s.vecs (s.primvecs bc)).refCount - 1,
                  (s.vecs (s.primvecs bc)).freeCount⟩)) m).ptr =
              if m = s.numSharedPrimVecs then l
              else if m = s.numSharedPrimVecs + 1 then r
              else (s.vecs m).ptr := by
          intro m hm
          by_cases hmN : m = s.numSharedPrimVecs
          · rw [if_pos hmN, hmN,
              Function.update_noteq (show s.numSharedPrimVecs ≠ s.primvecs bc by omega),
              Function.update_noteq (show s.numSharedPrimVecs ≠ s.numSharedPrimVecs + 1 by omega),
              Function.update_same, sharedVec_mk_ptr]
          · rw [if_neg hmN]
            by_cases hmN1 : m = s.numSharedPrimVecs + 1
            · rw [if_pos hmN1, hmN1,
                Function.update_noteq (show s.numSharedPrimVecs + 1 ≠ s.primvecs bc by omega),
                Function.update_same, sharedVec_mk_ptr]
            · rw [if_neg hmN1]
              by_cases hmB : m = s.primvecs bc
              · rw [hmB, Function.update_same, hZptr]
              · rw [Function.update_noteq hmB, Function.update_noteq hmN1,
                  Function.update_noteq hmN]
        intro j hj k hk h
        rw [hptr j hj, hptr k hk] at h
        by_cases hjN : j = s.numSharedPrimVecs
        · by_cases hkN : k = s.numSharedPrimVecs
          · rw [hjN, hkN]
          · rw [if_pos hjN, if_neg hkN] at h
            by_cases hkN1 : k = s.numSharedPrimVecs + 1
            · rw [if_pos hkN1] at h
              exact absurd h hlr'
            · rw [if_neg hkN1] at h
              exact absurd h.symm (hfreshl k (by omega))
        · rw [if_neg hjN] at h
          by_cases hjN1 : j = s.numSharedPrimVecs + 1
          · rw [if_pos hjN1] at h
            by_cases hkN : k = s.numSharedPrimVecs
            · rw [if_pos hkN] at h
              exact absurd h.symm hlr'
            · rw [if_neg hkN] at h
              by_cases hkN1 : k = s.numSharedPrimVecs + 1
              · rw [hjN1, hkN1]
              · rw [if_neg hkN1] at h
                exact absurd h.symm (hfreshr k (by omega))
          · rw [if_neg hjN1] at h
            by_cases hkN : k = s.numSharedPrimVecs
            · rw [if_pos hkN] at h
              exact absurd h (hfreshl j (by omega))
            · rw [if_neg hkN] at h
              by_cases hkN1 : k = s.numSharedPrimVecs + 1
              · rw [if_pos hkN1] at h
                exact absurd h (hfreshr j (by omega))
              · rw [if_neg hkN1] at h
                exact ptr_inj j (by omega) k (by omega) h
      · show s.numSharedPrimVecs + 2 ≤ 2 * (s.numChildren + 1) - 1
        omega

/-- Every state reachable in the lifetime of one local child list satisfies
the reference-counting invariant. -/
theorem clinv_reachable (F : ℕ) {s : ChildList} (h : ReachesCL F s)
    (hF : 1 ≤ F) : CLInv F s := by
  induction h with
  | init p => exact clinv_init F p hF
  | step _ hv ih => exact clinv_step F ih hv

/-- Slots not yet released by the destructor loop: the number of slots in
`[k, numChildren)` pointing at pool index `j`. -/
def slotCountFrom (s : ChildList) (k j : ℕ) : ℕ :=
  ∑ i ∈ Finset.Ico k s.numChildren, if s.primvecs i = j then 1 else 0

/-- Before destruction starts, the pending slots are exactly the slot
count. -/
theorem slotCountFrom_zero (s : ChildList) (j : ℕ) :
    slotCountFrom s 0 j = slotCount s j := by
  unfold slotCountFrom slotCount slotCountF
  rw [Finset.range_eq_Ico]

/-- Peeling the next released slot off the pending count. -/
theorem slotCountFrom_peel (s : ChildList) (k j : ℕ) (hk : k < s.numChildren) :
    slotCountFrom s k j =
      (if s.primvecs k = j then 1 else 0) + slotCountFrom s (k + 1) j := by
  unfold slotCountFrom
  exact Finset.sum_eq_sum_Ico_succ_bot hk _

/-- After the last slot is released, nothing is pending. -/
theorem slotCountFrom_end (s : ChildList) (j : ℕ) :
    slotCountFrom s s.numChildren j = 0 := by
  unfold slotCountFrom
  rw [Finset.Ico_self, Finset.sum_empty]

/-- The vector pool after a `decRef` at pool index `j0`. -/
theorem decRefAt_vecs (s : ChildList) (j0 : ℕ) :
    (decRefAt s j0).vecs = Function.update s.vecs j0
      (if (s.vecs j0).refCount - 1 = 0 then
        ⟨(s.vecs j0).ptr, 0, (s.vecs j0).freeCount + 1⟩
      else
        ⟨(s.vecs j0).ptr, (s.vecs j0).refCount - 1, (s.vecs j0).freeCount⟩) := rfl

/-- State of the vector pool after the destructor has released the first `k`
children: pointers are unchanged, each vector retains one reference per
pending slot plus its outside holders, and is freed exactly when no pending
slot and no outside holder remains. -/
theorem destroyStep_desc (F : ℕ) (s : ChildList) (inv : CLInv F s) :
    ∀ k, k ≤ s.numChildren → ∀ j, j < s.numSharedPrimVecs →
      ((destroyStep s s.primvecs k).vecs j).ptr = (s.vecs j).ptr ∧
      ((destroyStep s s.primvecs k).vecs j).refCount =
        slotCountFrom s k j + outsideHolders j ∧
      ((destroyStep s s.primvecs k).vecs j).freeCount =
        (if slotCountFrom s k j + outsideHolders j = 0 then 1 else 0) := by
  obtain ⟨cpos, nc_le, pv_lt, child_ptr, refcount, freecount, ptr_inj, vec_bound⟩ := inv
  intro k
  induction k with
  | zero =>
    intro _ j hj
    refine ⟨rfl, ?_, ?_⟩
    · rw [slotCountFrom_zero]
      exact refcount j hj
    · rw [slotCountFrom_zero]
      exact freecount j hj
  | succ k ih =>
    intro hk j hj
    have hk' : k < s.numChildren := by omega
    have hpeel := slotCountFrom_peel s k j hk'
    have hstep : destroyStep s s.primvecs (k + 1) =
        decRefAt (destroyStep s s.primvecs k) (s.primvecs k) := rfl
    rw [hstep, decRefAt_vecs]
    by_cases hjj : s.primvecs k = j
    · obtain ⟨ihp, ihr, ihf⟩ := ih (by omega) j hj
      rw [if_pos hjj] at hpeel
      subst hjj
      rw [Function.update_same]
      by_cases hz :
          ((destroyStep s s.primvecs k).vecs (s.primvecs k)).refCount - 1 = 0
      · rw [if_pos hz]
        refine ⟨by rw [sharedVec_mk_ptr, ihp], ?_, ?_⟩
        · rw [sharedVec_mk_refCount]
          omega
        · rw [sharedVec_mk_freeCount, ihf]
          rw [if_neg (by omega)]
          rw [if_pos (by omega)]
      · rw [if_neg hz]
        refine ⟨by rw [sharedVec_mk_ptr, ihp], ?_, ?_⟩
        · rw [sharedVec_mk_refCount]
          omega
        · rw [sharedVec_mk_freeCount, ihf]
          rw [if_neg (by omega)]
          rw [if_neg (by omega)]
    · obtain ⟨ihp, ihr, ihf⟩ := ih (by omega) j hj
      rw [if_neg hjj] at hpeel
      rw [Function.update_noteq (Ne.symm hjj)]
      refine ⟨ihp, ?_, ?_⟩
      · rw [ihr]
        omega
      · rw [ihf, hpeel, Nat.zero_add]

/-- Claim C3: reference-count soundness of the Local Child List.  The constructor
installs the incoming record as child 0 with its shared primitive vector at
refcount 2; every `split` grows `numChildren` by exactly 1; in every
reachable state every child slot points at a shared vector whose refcount
equals the number of references held by this list plus the outside holders;
no vector referenced by a live child is ever freed; and destruction releases
each child's vector once, whereupon every fresh vector is freed exactly once
while the root vector survives at refcount 1 for the ancestor that created
the array. -/
theorem localChildList_refcount_sound (F : ℕ) (s : ChildList)
    (hs : ReachesCL F s) (hF : 1 ≤ F) :
    (∀ p : ℕ, (initCL p).numChildren = 1 ∧ (initCL p).children 0 = p ∧
      (initCL p).vecs ((initCL p).primvecs 0) = ⟨p, 2, 0⟩)
    ∧ (∀ bc l r : ℕ, (splitCL s bc l r).numChildren = s.numChildren + 1)
    ∧ (∀ j, j < s.numSharedPrimVecs →
        (s.vecs j).refCount = slotCount s j + outsideHolders j)
    ∧ (∀ i, i < s.numChildren → (s.vecs (s.primvecs i)).freeCount = 0)
    ∧ (∀ j, j < s.numSharedPrimVecs →
        ((destroyCL s).vecs j).refCount = outsideHolders j)
    ∧ (∀ j, j < s.numSharedPrimVecs →
        ((destroyCL s).vecs j).freeCount = if j = 0 then 0 else 1) := by
  have inv := clinv_reachable F hs hF
  obtain ⟨cpos, nc_le, pv_lt, child_ptr, refcount, freecount, ptr_inj, vec_bound⟩ :=
    inv
  have hdes := destroyStep_desc F s
    ⟨cpos, nc_le, pv_lt, child_ptr, refcount, freecount, ptr_inj, vec_bound⟩
  refine ⟨fun p => ⟨rfl, rfl, rfl⟩, fun bc l r => rfl, refcount, ?_, ?_, ?_⟩
  · intro i hi
    have hj : s.primvecs i < s.numSharedPrimVecs := pv_lt i hi
    have hslot : 1 ≤ slotCount s (s.primvecs i) :=
      slotCountF_pos s.numChildren i (s.primvecs i) s.primvecs hi rfl
    rw [freecount (s.primvecs i) hj]
    rw [if_neg (by omega)]
  · intro j hj
    obtain ⟨_, hrc, _⟩ := hdes s.numChildren (Nat.le_refl _) j hj
    rw [slotCountFrom_end] at hrc
    show ((destroyStep s s.primvecs s.numChildren).vecs j).refCount =
      outsideHolders j
    omega
  · intro j hj
    obtain ⟨_, _, hfc⟩ := hdes s.numChildren (Nat.le_refl _) j hj
    rw [slotCountFrom_end] at hfc
    show ((destroyStep s s.primvecs s.numChildren).vecs j).freeCount =
      if j = 0 then 0 else 1
    rw [hfc]
    unfold outsideHolders
    by_cases hj0 : j = 0
    · rw [if_pos hj0, if_pos hj0]
      rw [if_neg (by omega)]
    · rw [if_neg hj0, if_neg hj0]
      rw [if_pos (by omega)]

/-- Witness for C3: in the constructor state, destruction leaves the root
vector at refcount 1 (held by the ancestor). -/
theorem localChildList_refcount_sound_witness :
    ((destroyCL (initCL 0)).vecs 0).refCount = outsideHolders 0 :=
  (localChildList_refcount_sound 8 (initCL 0) (ReachesCL.init 0)
    (by omega)).2.2.2.2.1 0 (by decide)

/-- Claim C9: the shared-vector slot pool never overflows.  In every reachable
state `numSharedPrimVecs ≤ 1 + 2·(numChildren − 1) ≤ 2·branchingFactor − 1 ≤ 15`
(construction consumes one slot and each split at most two while
`numChildren < branchingFactor ≤ 8`), and the state after one further valid
split still uses at most 15 of the `2·MAX_BRANCHING_FACTOR = 16` slots, so
every placement-new into `sharedPrimVecs` is within bounds. -/
theorem sharedPrimVecs_pool_bound (F : ℕ) (s : ChildList)
    (hs : ReachesCL F s) (hF1 : 1 ≤ F) (hF8 : F ≤ 8) :
    s.numSharedPrimVecs ≤ 1 + 2 * (s.numChildren - 1)
    ∧ s.numChildren ≤ F
    ∧ s.numSharedPrimVecs ≤ 2 * F - 1
    ∧ s.numSharedPrimVecs ≤ 15
    ∧ (∀ bc l r : ℕ, ValidSplit F s bc l r →
        (splitCL s bc l r).numSharedPrimVecs ≤ 15) := by
  have inv := clinv_reachable F hs hF1
  obtain ⟨cpos, nc_le, pv_lt, child_ptr, refcount, freecount, ptr_inj, vec_bound⟩ :=
    inv
  refine ⟨by omega, nc_le, by omega, by omega, ?_⟩
  intro bc l r hv
  have inv' := clinv_step F
    ⟨cpos, nc_le, pv_lt, child_ptr, refcount, freecount, ptr_inj, vec_bound⟩ hv
  have h1 := inv'.nc_le
  have h2 := inv'.vec_bound
  omega

/-- Witness for C9: the constructor state uses one slot, within the bound. -/
theorem sharedPrimVecs_pool_bound_witness :
    (initCL 0).numSharedPrimVecs ≤ 1 + 2 * ((initCL 0).numChildren - 1) :=
  (sharedPrimVecs_pool_bound 8 (initCL 0) (ReachesCL.init 0)
    (by omega) (by omega)).1

end BVHMB
